import Mathlib

/-! # English Tutor App: the local data store and its handlers

A shallow embedding of `src/script.js`.  The browser state `S` is passed
explicitly: `S.db` is the record `DB`, `S.session` is `Session`.  Strings are
Lean strings, instants (`new Date(..)` values, ISO timestamps) are integers
counting milliseconds since the epoch, JavaScript objects used as maps are
association lists in insertion order.

Platform primitives the script calls but does not define (`String.prototype.trim`,
`toLowerCase`, the digest behind `hashPw`, the `Date` parser, `Number`, the
offsets of the local time zone) are the fields of `Platform`; results of
`id(..)` (random) and of clock reads are arguments of the handler that performs
them.  The setters `setHours` and `setDate` move the local fields of a `Date`
and are computed from the zone offsets (`shiftLocal`).  The quiz bars round the
doubles that the script computes (`toDouble`); the quiz average is kept in exact
arithmetic.

Every handler is one atomic step from state to state: the `await hashPw(..)`
inside the sign-in and sign-up handlers is not a point at which another handler
runs.  Stored lesson datetimes are valid instants, as `seed` and the booking
handler write them.
-/

set_option autoImplicit false

namespace EnglishTutor

/-! ## Data model -/

/-- User record, as built in `seed` and in the sign-up handler. -/
structure User where
  id : String
  name : String
  email : String
  role : String
  passwordHash : String
  createdAt : Int
deriving DecidableEq, Repr

/-- Lesson record; `datetime` is the instant that the stored ISO string denotes. -/
structure Lesson where
  id : String
  studentId : String
  tutorId : String
  datetime : Int
  type : String
  duration : Int
  status : String
  createdAt : Int
deriving DecidableEq, Repr

/-- Chat message `{ id, senderId, text, ts }`. -/
structure ChatMessage where
  id : String
  senderId : String
  text : String
  ts : Int
deriving DecidableEq, Repr

/-- Whiteboard stroke `{ size, points }`. -/
structure Stroke where
  size : Int
  points : List (Rat × Rat)
deriving DecidableEq, Repr

/-- Whiteboard `{ strokes, snapshots }`; a snapshot is a data URL. -/
structure Whiteboard where
  strokes : List Stroke
  snapshots : List String
deriving DecidableEq, Repr

/-- Vocabulary entry `{ term, definition }`. -/
structure VocabItem where
  term : String
  definition : String
deriving DecidableEq, Repr

/-- Lesson tools `{ vocab, corrections }`; a correction is `{ text }`. -/
structure LessonTools where
  vocab : List VocabItem
  corrections : List String
deriving DecidableEq, Repr

/-- Quiz result `{ score, total, date }`. -/
structure QuizResult where
  score : Int
  total : Int
  date : Int
deriving DecidableEq, Repr

/-- Rubric `{ clarity, grammar, vocabulary }`, `none` standing for `null`. -/
structure Rubric where
  clarity : Option Int
  grammar : Option Int
  vocabulary : Option Int
deriving DecidableEq, Repr

/-- Writing submission `{ id, prompt, text, date, feedback, rubric }`. -/
structure WritingSubmission where
  id : String
  prompt : String
  text : String
  date : Int
  feedback : String
  rubric : Rubric
deriving DecidableEq, Repr

/-- Progress record `{ quizResults, vocabKnown, writingSubmissions }`. -/
structure Progress where
  quizResults : List QuizResult
  vocabKnown : List (String × Bool)
  writingSubmissions : List WritingSubmission
deriving DecidableEq, Repr

/-- The database document `S.db`, with the eight top-level keys of `shape`. -/
structure DB where
  users : List User
  lessons : List Lesson
  chats : List (String × List ChatMessage)
  lessonNotes : List (String × String)
  whiteboards : List (String × Whiteboard)
  lessonTools : List (String × LessonTools)
  progress : List (String × Progress)
  darkMode : Bool
deriving DecidableEq, Repr

/-- The session document `S.session`. -/
structure Session where
  currentUserId : Option String
deriving DecidableEq, Repr

/-- The part of `S` the handlers read and write. -/
structure State where
  db : DB
  session : Session
deriving DecidableEq, Repr

/-- A JavaScript number as `Number(..)` returns it: `NaN`, an infinity, or a
finite value (every finite double is a rational). -/
inductive JsNumber where
  | nan
  | negInf
  | fin (q : Rat)
  | posInf
deriving DecidableEq, Repr

/-- Primitives of the host platform used by the script. `parseDate raw` is
`new Date(raw).getTime()`, with `none` for `NaN`; `parseNumber v` is `Number(v)`
for a string `v` that is not empty.  The local time zone is given by its offset
from UTC in milliseconds: `offsetAt t` at the instant `t`, and `offsetOfLocal x`
for the local time value `x` (the offset that `Date` uses to turn local fields
back into an instant; the two differ around a clock change). -/
structure Platform where
  trim : String → String
  toLowerCase : String → String
  hashPw : String → String
  parseDate : String → Option Int
  toNumber : String → Int
  parseNumber : String → JsNumber
  offsetAt : Int → Int
  offsetOfLocal : Int → Int

/-- Embeds `s.length` of a JavaScript string: the number of UTF-16 code units. -/
def jsLength (s : String) : Nat :=
  (s.data.map fun c => if c.val.toNat < 65536 then 1 else 2).sum

/-! ## Helpers at the end of the script -/

/-- Embeds `currentUser()`: the first user whose id is the session's, or `null`. -/
def currentUser (s : State) : Option User :=
  s.db.users.find? fun u => some u.id = s.session.currentUserId

/-- Embeds `userById(uid)`. -/
def userById (db : DB) (uid : String) : Option User :=
  db.users.find? fun u => u.id = uid

/-- Embeds `userLessons(u)`. -/
def userLessons (db : DB) (u : User) : List Lesson :=
  if u.role = "Tutor" then db.lessons.filter fun l => l.tutorId = u.id
  else db.lessons.filter fun l => l.studentId = u.id

/-- The empty progress record that `ensureProgress` stores. -/
def emptyProgress : Progress :=
  { quizResults := [], vocabKnown := [], writingSubmissions := [] }

/-- Embeds `ensureProgress(uid)`, the database part: adds the empty record when the
key has none. -/
def ensureProgress (db : DB) (uid : String) : DB :=
  match db.progress.lookup uid with
  | some _ => db
  | none => { db with progress := db.progress ++ [(uid, emptyProgress)] }

/-- Embeds `ensureProgress(uid)`, the returned record. -/
def progressOf (db : DB) (uid : String) : Progress :=
  (db.progress.lookup uid).getD emptyProgress

/-! ## Accept / decline (`tutorReqHtml`, `bindTutorReq`) -/

/-- Assignment `l.status = ..` to the lesson that `find` returns: the first
lesson with that id. -/
def setStatus (lid st : String) : List Lesson → List Lesson
  | [] => []
  | l :: ls => if l.id = lid then { l with status := st } :: ls else l :: setStatus lid st ls

/-- The click handler installed by `bindTutorReq`; `lid` is `b.dataset.id` and
`a` is `b.dataset.a`. -/
def respond (db : DB) (lid a : String) : DB :=
  match db.lessons.find? fun x => x.id = lid with
  | none => db
  | some _ =>
    { db with lessons := setStatus lid (if a = "accept" then "accepted" else "declined") db.lessons }

/-- The `(data-a, data-id)` pairs of the buttons that `tutorReqHtml(all)` renders:
an Accept and a Decline button for every pending lesson of `all`. -/
def tutorReqButtons (all : List Lesson) : List (String × String) :=
  ((all.filter fun l => l.status = "pending").map fun l =>
    [("accept", l.id), ("decline", l.id)]).flatten

/-! ## Sign-in and sign-up (`auth`) -/

/-- What a submit handler leaves behind: the text it put in the form's message
element (`none` when it ran to its last line) and the state afterwards. -/
structure Outcome (σ : Type) where
  error : Option String
  state : σ
deriving DecidableEq, Repr

/-- The `signInForm` submit handler; `rawEmail` and `rawPw` are the form fields
(`""` for a missing field). -/
def signIn (P : Platform) (s : State) (rawEmail rawPw : String) : Outcome State :=
  let email := P.toLowerCase (P.trim rawEmail)
  let pw := rawPw
  if email = "" ∨ pw = "" then ⟨some "Email and password required.", s⟩
  else
    match s.db.users.find? fun x => P.toLowerCase x.email = email with
    | none => ⟨some "No account found.", s⟩
    | some u =>
      if P.hashPw pw ≠ u.passwordHash then ⟨some "Incorrect password.", s⟩
      else ⟨none, { s with session := { currentUserId := some u.id } }⟩

/-- Fields of the sign-up form. -/
structure SignUpForm where
  name : String
  email : String
  password : String
  role : String
deriving DecidableEq, Repr

/-- The `signUpForm` submit handler; `newId` is the result of `id("u")` and
`now` the instant of `iso()`. -/
def signUp (P : Platform) (s : State) (f : SignUpForm) (newId : String) (now : Int) :
    Outcome State :=
  let name := P.trim f.name
  let email := P.toLowerCase (P.trim f.email)
  let pw := f.password
  let role := if f.role = "" then "Student" else f.role
  if name = "" ∨ email = "" ∨ pw = "" then ⟨some "Complete all fields.", s⟩
  else if jsLength pw < 6 then ⟨some "Password must be at least 6 characters.", s⟩
  else if s.db.users.any fun u => P.toLowerCase u.email = email then
    ⟨some "Email already in use.", s⟩
  else
    let u : User :=
      { id := newId, name := name, email := email, role := role,
        passwordHash := P.hashPw pw, createdAt := now }
    ⟨none, { db := ensureProgress { s.db with users := s.db.users ++ [u] } u.id,
             session := { currentUserId := some u.id } }⟩

/-- Embeds `signOut()`, the session part. -/
def signOut (s : State) : State :=
  { s with session := { currentUserId := none } }

/-! ## Seed -/

/-- The instant of a `Date` made at instant `now` after a setter moved its local
fields forward by `delta` milliseconds: the local time value is
`now + offsetAt now + delta`, and the setter stores the instant that has this
local time. -/
def shiftLocal (P : Platform) (now delta : Int) : Int :=
  now + P.offsetAt now + delta - P.offsetOfLocal (now + P.offsetAt now + delta)

/-- Embeds `addHours(h)` read at instant `now`: `d.setHours(d.getHours() + h)`
moves the local hour field. -/
def addHours (P : Platform) (now h : Int) : Int := shiftLocal P now (h * 3600000)

/-- The instant of `d.setDate(d.getDate() + n)` for `d` made at instant `now`:
the same local time of day `n` calendar days later. -/
def addDays (P : Platform) (now n : Int) : Int := shiftLocal P now (n * 86400000)

/-- The random ids drawn by `seed` and the instant of its clock reads. -/
structure SeedEnv where
  tutorId : String
  studentId : String
  l1Id : String
  l2Id : String
  mId : String
  wId : String
  now : Int
deriving DecidableEq, Repr

/-- The tutor record of `seed`. -/
def seedTutor (P : Platform) (e : SeedEnv) : User :=
  { id := e.tutorId, name := "Emma Clark", email := "tutor@example.com", role := "Tutor",
    passwordHash := P.hashPw "demo123", createdAt := e.now }

/-- The student record of `seed`. -/
def seedStudent (P : Platform) (e : SeedEnv) : User :=
  { id := e.studentId, name := "Liam Chen", email := "student@example.com", role := "Student",
    passwordHash := P.hashPw "demo123", createdAt := e.now }

/-- Lesson `l1` of `seed`. -/
def seedL1 (P : Platform) (e : SeedEnv) : Lesson :=
  { id := e.l1Id, studentId := e.studentId, tutorId := e.tutorId,
    datetime := addHours P e.now 30,
    type := "Conversation", duration := 45, status := "accepted", createdAt := e.now }

/-- Lesson `l2` of `seed`. -/
def seedL2 (P : Platform) (e : SeedEnv) : Lesson :=
  { id := e.l2Id, studentId := e.studentId, tutorId := e.tutorId,
    datetime := addHours P e.now 54,
    type := "Grammar", duration := 60, status := "pending", createdAt := e.now }

/-- Embeds `seed()`. -/
def seed (P : Platform) (e : SeedEnv) : DB :=
  { users := [seedTutor P e, seedStudent P e],
    lessons := [seedL1 P e, seedL2 P e],
    chats := [(e.l1Id, [{ id := e.mId, senderId := e.tutorId, text := "Welcome!", ts := e.now }])],
    lessonNotes := [(e.l1Id, "Warm-up: speak for 2 minutes.")],
    whiteboards := [(e.l1Id, { strokes := [], snapshots := [] })],
    lessonTools := [(e.l1Id,
      { vocab := [{ term := "confident", definition := "sure about your ability" }],
        corrections := ["Use: I have been learning..."] })],
    progress := [(e.studentId,
      { quizResults := [{ score := 2, total := 3, date := e.now }],
        vocabKnown := [("resilient", true)],
        writingSubmissions := [{
          id := e.wId,
          prompt := "Describe a memorable trip and what you learned.",
          text := "I traveled and learned patience.",
          date := e.now,
          feedback := "Good start.",
          rubric := { clarity := some 4, grammar := some 4, vocabulary := some 3 } }] })],
    darkMode := false }

/-! ## Booking (`bookingHtml`, `bindBooking`) -/

/-- The option values of the tutor select that `bookingHtml` renders. -/
def bookingOptions (db : DB) : List String :=
  (db.users.filter fun u => u.role = "Tutor").map fun t => t.id

/-- Fields of the booking form. -/
structure BookForm where
  tutorId : String
  datetime : String
  type : String
  duration : String
deriving DecidableEq, Repr

/-- The `bookForm` submit handler; `u` is the user `bindBooking` captured from
`currentUser()`, `now` the instant of the clock reads, `newId` the result of
`id("l")`. -/
def bookSubmit (P : Platform) (db : DB) (u : User) (f : BookForm) (now : Int)
    (newId : String) : Outcome DB :=
  let tutorId := f.tutorId
  let raw := f.datetime
  let type := if f.type = "" then "Conversation" else f.type
  let dur : Int := if f.duration = "" then 45 else P.toNumber f.duration
  match (if raw = "" then none else P.parseDate raw) with
  | none => ⟨some "Please choose a valid date/time.", db⟩
  | some dt =>
    if dt ≤ now then ⟨some "Lesson must be in the future.", db⟩
    else
      ⟨none, { db with lessons := db.lessons ++
        [{ id := newId, studentId := u.id, tutorId := tutorId, datetime := dt,
           type := type, duration := dur, status := "pending", createdAt := now }] }⟩

/-! ## Derived views (`dashboard`, `lessons`, `stats`) -/

/-- Embeds `xs.sort((a, b) => new Date(a.datetime) - new Date(b.datetime))`.
`Array.prototype.sort` is stable, and a stable sort is determined by its
comparator; insertion sort computes it. -/
def sortByDatetime (xs : List Lesson) : List Lesson :=
  xs.insertionSort fun a b => a.datetime ≤ b.datetime

/-- The list `up` of `dashboard()`. -/
def dashboardUpcoming (db : DB) (u : User) (now : Int) : List Lesson :=
  (sortByDatetime ((userLessons db u).filter fun l =>
    l.status = "accepted" ∧ now < l.datetime)).take 3

/-- The list `all` of `lessons()`. -/
def lessonsAll (db : DB) (u : User) : List Lesson :=
  sortByDatetime (userLessons db u)

/-- The list `week` of `lessons()`; both clock reads happen at `now`. -/
def lessonsWeek (P : Platform) (db : DB) (u : User) (now : Int) : List Lesson :=
  (lessonsAll db u).filter fun l => now ≤ l.datetime ∧ l.datetime ≤ addDays P now 7

/-- The list `up` of `lessons()`. -/
def lessonsUpcoming (db : DB) (u : User) (now : Int) : List Lesson :=
  ((lessonsAll db u).filter fun l => l.status = "accepted" ∧ now < l.datetime).take 5

/-- The record `stats` returns. -/
structure Stats where
  lessonsAttended : Nat
  avg : Rat
  vocab : Nat
  writing : List WritingSubmission
  bars : List Int
deriving DecidableEq, Repr

/-- The exact value of `(q.score / q.total) * 100`, used for the average, which
is modelled in exact arithmetic (`total = 0` is outside the model). -/
def quizPercent (q : QuizResult) : Rat :=
  ((q.score : Rat) / (q.total : Rat)) * 100

/-- Embeds `Math.round`: the nearest integer, halves going up. -/
def mathRound (x : Rat) : Int := Int.floor (x + 1 / 2)

/-- The integer nearest to `y`, a half going to the even neighbour. -/
def roundHalfEven (y : Rat) : Int :=
  if y - (Int.floor y : Rat) < 1 / 2 then Int.floor y
  else if 1 / 2 < y - (Int.floor y : Rat) then Int.floor y + 1
  else if Int.floor y % 2 = 0 then Int.floor y
  else Int.floor y + 1

/-- The double nearest to the real `q` (IEEE 754 binary64, round to nearest, ties
to even): with `2 ^ e ≤ |q| < 2 ^ (e + 1)` the doubles around `q` are the
multiples of `2 ^ (e - 52)`.  The exponent is not bounded: overflow and
subnormal numbers are outside the model. -/
def toDouble (q : Rat) : Rat :=
  if q = 0 then 0
  else (roundHalfEven (q / (2 : Rat) ^ (Int.log 2 |q| - 52)) : Rat) *
    (2 : Rat) ^ (Int.log 2 |q| - 52)

/-- The value of `(q.score / q.total) * 100` as the script computes it: a
division and a multiplication of doubles, each rounded (`total = 0` is outside
the model). -/
def quizPercentDouble (q : QuizResult) : Rat :=
  toDouble (toDouble ((q.score : Rat) / (q.total : Rat)) * 100)

/-- Embeds `stats(studentId)`, the returned record, with `now` the instant of its clock
read. -/
def stats (db : DB) (studentId : String) (now : Int) : Stats :=
  let p := progressOf db studentId
  let lessonsAttended := (db.lessons.filter fun l =>
    l.studentId = studentId ∧ l.status = "accepted" ∧ l.datetime < now).length
  let qr := p.quizResults
  let avg : Rat :=
    if qr.length ≠ 0 then (qr.foldl (fun s q => s + quizPercent q) 0) / (qr.length : Rat) else 0
  let vocab := ((p.vocabKnown.map fun kv => kv.2).filter fun b => b).length
  let bars := (qr.drop (qr.length - 8)).map fun q => mathRound (quizPercentDouble q)
  { lessonsAttended := lessonsAttended, avg := avg, vocab := vocab,
    writing := p.writingSubmissions, bars := bars }

/-- Embeds `stats(studentId)`, the effect on the database (through `ensureProgress`). -/
def statsDb (db : DB) (studentId : String) : DB := ensureProgress db studentId

/-! ## Reachable states -/

/-- States reached from a freshly seeded database, with whatever session was
stored, by sign-up submissions. -/
inductive SignUpReachable (P : Platform) : State → Prop
  | seeded (e : SeedEnv) (sess : Session) : SignUpReachable P ⟨seed P e, sess⟩
  | signUp {s : State} (f : SignUpForm) (newId : String) (now : Int) :
      SignUpReachable P s → SignUpReachable P (signUp P s f newId now).state

/-- States reached from a freshly seeded database by sign-up, sign-in, sign-out,
booking and accept/decline.  A booking is submitted by the current user, a
Student, through the form of `bookingHtml`, whose tutor field is a select over
`bookingOptions` (the empty string when the select has no option); the other
handlers are run on any input. -/
inductive Reachable (P : Platform) : State → Prop
  | seeded (e : SeedEnv) (sess : Session) : Reachable P ⟨seed P e, sess⟩
  | signUp {s : State} (f : SignUpForm) (newId : String) (now : Int) :
      Reachable P s → Reachable P (signUp P s f newId now).state
  | signIn {s : State} (rawEmail rawPw : String) :
      Reachable P s → Reachable P (signIn P s rawEmail rawPw).state
  | signOut {s : State} : Reachable P s → Reachable P (signOut s)
  | book {s : State} {u : User} (f : BookForm) (now : Int) (newId : String) :
      Reachable P s → currentUser s = some u → u.role = "Student" →
      (f.tutorId ∈ bookingOptions s.db ∨ (bookingOptions s.db = [] ∧ f.tutorId = "")) →
      Reachable P ⟨(bookSubmit P s.db u f now newId).state, s.session⟩
  | respond {s : State} (lid a : String) :
      Reachable P s → Reachable P ⟨respond s.db lid a, s.session⟩

/-- Every lesson names a stored student and a stored tutor, and some stored user
is a tutor. -/
def RefsResolve (db : DB) : Prop :=
  (∀ l ∈ db.lessons, (∃ u ∈ db.users, u.id = l.studentId) ∧ (∃ t ∈ db.users, t.id = l.tutorId)) ∧
  ∃ t ∈ db.users, t.role = "Tutor"

instance decidableRefsResolve (db : DB) : Decidable (RefsResolve db) := by
  unfold RefsResolve
  infer_instance

/-! ## Whiteboard (`wb`, `initWb`) -/

/-- The closure variables `drawOn` and `st` of `initWb`. -/
structure Pen where
  drawOn : Bool
  st : Option Stroke
deriving DecidableEq, Repr

/-- The `pointerup` handler on the whiteboard `w` that `initWb` captured. -/
def pointerUp (w : Whiteboard) (p : Pen) : Whiteboard × Pen :=
  match p.st with
  | none => (w, p)
  | some st =>
    if p.drawOn = false then (w, p)
    else ({ w with strokes := w.strokes ++ [st] }, { drawOn := false, st := none })

/-- The click handler of the Undo button: `w.strokes.pop()`. -/
def wbUndo (w : Whiteboard) : Whiteboard :=
  { w with strokes := w.strokes.dropLast }

/-- The click handler of the Clear button: `w.strokes = []`. -/
def wbClear (w : Whiteboard) : Whiteboard :=
  { w with strokes := [] }

/-- The click handler of the Save Snapshot button; `img` is the data URL that
`c.toDataURL("image/png")` returns. -/
def wbSave (w : Whiteboard) (img : String) : Whiteboard :=
  let pushed := w.snapshots ++ [img]
  { w with snapshots := if 20 < pushed.length then pushed.tail else pushed }

/-- A run of Save Snapshot clicks, in order. -/
def wbSaveAll (w : Whiteboard) (imgs : List String) : Whiteboard :=
  imgs.foldl wbSave w

/-! ## Writing submissions and feedback (`bindExercises`, `score`) -/

/-- The `writeForm` submit handler on the progress record `p` that
`bindExercises` captured; `newId` is the result of `id("w")`, `now` the instant
of `iso()`. -/
def submitWriting (P : Platform) (p : Progress) (rawPrompt rawText : String) (newId : String)
    (now : Int) : Outcome Progress :=
  let prompt := P.trim rawPrompt
  let text := P.trim rawText
  if text = "" then ⟨some "Please write a response before submitting.", p⟩
  else
    ⟨none, { p with writingSubmissions := p.writingSubmissions ++
      [{ id := newId, prompt := prompt, text := text, date := now, feedback := "",
         rubric := { clarity := none, grammar := none, vocabulary := none } }] }⟩

/-- Embeds `Number(v)` for a string: the empty string converts to 0, any other string
goes through the numeric-literal parser of the platform. -/
def number (P : Platform) (v : String) : JsNumber :=
  if v = "" then JsNumber.fin 0 else P.parseNumber v

/-- Embeds `score(v)`; `none` stands for `null`. -/
def score (P : Platform) (v : String) : Option Int :=
  match number P v with
  | JsNumber.nan => none
  | JsNumber.negInf => some 1
  | JsNumber.fin q => some (max 1 (min 5 (mathRound q)))
  | JsNumber.posInf => some 5

/-! ## Shaping a loaded document (`shape`) -/

/-- A database document as `loadDB` returns it: each top-level key holds a value
or is missing or `null` (`none`). -/
structure Doc where
  users : Option (List User)
  lessons : Option (List Lesson)
  chats : Option (List (String × List ChatMessage))
  lessonNotes : Option (List (String × String))
  whiteboards : Option (List (String × Whiteboard))
  lessonTools : Option (List (String × LessonTools))
  progress : Option (List (String × Progress))
  darkMode : Option Bool
deriving DecidableEq, Repr

/-- The assignment `if (S.db[k] == null) S.db[k] = d[k]` for one key with
default `dflt`. -/
def fillKey {α : Type} (dflt : α) (v : Option α) : Option α :=
  match v with
  | none => some dflt
  | some x => some x

/-- Embeds `shape()`, the in-memory document afterwards. -/
def shape (d : Doc) : Doc :=
  { users := fillKey [] d.users,
    lessons := fillKey [] d.lessons,
    chats := fillKey [] d.chats,
    lessonNotes := fillKey [] d.lessonNotes,
    whiteboards := fillKey [] d.whiteboards,
    lessonTools := fillKey [] d.lessonTools,
    progress := fillKey [] d.progress,
    darkMode := fillKey false d.darkMode }

/-! ## Persistent store and lesson room (`saveDB`, `ensureTools`, `wb`, `room`) -/

/-- The in-memory database `S.db` together with the document held under `K.db`
in persistent storage (`none` when the key is absent); a stored document is
represented by the value it parses to. -/
structure App where
  db : DB
  stored : Option DB
deriving DecidableEq, Repr

/-- Embeds `saveDB()`. -/
def saveDB (a : App) : App := { a with stored := some a.db }

/-- Embeds `ensureTools(lid)`. -/
def ensureTools (a : App) (lid : String) : App :=
  match a.db.lessonTools.lookup lid with
  | some _ => a
  | none =>
    saveDB { a with db := { a.db with
      lessonTools := a.db.lessonTools ++ [(lid, { vocab := [], corrections := [] })] } }

/-- Embeds `wb(lid)`, the effect on the state. -/
def wb (a : App) (lid : String) : App :=
  match a.db.whiteboards.lookup lid with
  | some _ => a
  | none =>
    { a with db := { a.db with
      whiteboards := a.db.whiteboards ++ [(lid, { strokes := [], snapshots := [] })] } }

/-- What `room()` puts on the page. -/
inductive RoomView where
  | unavailable
  | noAccess
  | live (l : Lesson)
deriving DecidableEq, Repr

/-- Embeds `room()` for the current user `u` (never `null`: `render` sends visitors
without a session to the sign-in page) and the route parameter `param`.  In the
live branch `bindRoom` and `initWb` only install handlers; the second `wb(lid)`
of `initWb` finds the whiteboard made by the first. -/
def room (a : App) (u : User) (param : Option String) : RoomView × App :=
  match a.db.lessons.find? fun x => some x.id = param with
  | none => (RoomView.unavailable, a)
  | some l =>
    if l.status ≠ "accepted" then (RoomView.unavailable, a)
    else if u.id ≠ l.studentId ∧ u.id ≠ l.tutorId then (RoomView.noAccess, a)
    else (RoomView.live l, wb (ensureTools a l.id) l.id)

/-! ## Routes and countdown timers (`render`, `trial`, `timerBind`) -/

/-- Embeds `S.route`, as `parseRoute()` returns it. -/
structure Route where
  name : String
  param : Option String
deriving DecidableEq, Repr

/-- Embeds `S.ui.trial`. -/
structure TrialUi where
  idx : Nat
  score : Nat
  left : Int
  timerId : Option Nat
  done : Bool
  congratsShown : Bool
deriving DecidableEq, Repr

/-- Embeds `S.ui.timer`. -/
structure RoomTimer where
  id : Option Nat
  left : Int
deriving DecidableEq, Repr

/-- The route and the part of `S.ui` that the timers use.  A timer id is the
handle returned by `setInterval` (a positive integer) or `null`. -/
structure Ui where
  route : Route
  timer : RoomTimer
  trial : TrialUi
deriving DecidableEq, Repr

/-- Embeds `EX.quiz.length`. -/
def quizLength : Nat := 5

/-- Embeds `stopTrialTimer()`. -/
def stopTrialTimer (ui : Ui) : Ui :=
  match ui.trial.timerId with
  | some _ => { ui with trial := { ui.trial with timerId := none } }
  | none => ui

/-- Embeds `startTrialTimer()` on a page that has the `trialTimer` element; `h` is the
handle that `setInterval` returns. -/
def startTrialTimer (ui : Ui) (h : Nat) : Ui :=
  { stopTrialTimer ui with trial := { (stopTrialTimer ui).trial with timerId := some h } }

/-- Embeds `trial()`. -/
def trial (ui : Ui) (h : Nat) : Ui :=
  if ui.trial.done = true ∨ quizLength ≤ ui.trial.idx then
    { ui with trial := { ui.trial with
        done := true,
        congratsShown :=
          if ui.trial.score = quizLength ∧ ui.trial.congratsShown = false then true
          else ui.trial.congratsShown } }
  else startTrialTimer ui h

/-- Embeds `nextTrialQuestion(isCorrect)`. -/
def nextTrialQuestion (ui : Ui) (isCorrect : Bool) (h : Nat) : Ui :=
  trial { ui with trial := { ui.trial with
    score := if isCorrect then ui.trial.score + 1 else ui.trial.score,
    idx := ui.trial.idx + 1,
    left := 60,
    done := if quizLength ≤ ui.trial.idx + 1 then true else ui.trial.done } } h

/-- One run of the interval callback of the trial timer. -/
def trialTick (ui : Ui) (h : Nat) : Ui :=
  if ui.trial.left - 1 ≤ 0 then
    nextTrialQuestion (stopTrialTimer { ui with trial := { ui.trial with
      left := ui.trial.left - 1 } }) false h
  else { ui with trial := { ui.trial with left := ui.trial.left - 1 } }

/-- The routes `render` protects. -/
def protectedRoutes : List String := ["dashboard", "lessons", "room", "exercises", "progress"]

/-- Embeds `render()` for the parsed route `r` and the current user `u`: the state
afterwards and the page `navTo` was called with, if any.  Of the page functions
only `trial` writes to the timers; `h` is the handle a `setInterval` call in it
would return. -/
def render (ui : Ui) (u : Option User) (r : Route) (h : Nat) : Ui × Option String :=
  if r.name ∈ protectedRoutes ∧ u = none then
    ({ stopTrialTimer ui with route := r }, some "auth")
  else if r.name = "auth" ∧ u ≠ none then
    ({ stopTrialTimer ui with route := r }, some "dashboard")
  else if r.name = "trial" then (trial { stopTrialTimer ui with route := r } h, none)
  else ({ stopTrialTimer ui with route := r }, none)

/-- Embeds `stop` of `timerBind`. -/
def timerStop (ui : Ui) : Ui :=
  match ui.timer.id with
  | some _ => { ui with timer := { ui.timer with id := none } }
  | none => ui

/-- The click handler of the Start button in the lesson room; `h` is the handle
that `setInterval` returns. -/
def timerStartClick (ui : Ui) (h : Nat) : Ui :=
  match ui.timer.id with
  | some _ => ui
  | none => { ui with timer := { ui.timer with id := some h } }

/-- One run of the interval callback of the lesson-room timer. -/
def timerTick (ui : Ui) : Ui :=
  if ui.timer.left - 1 ≤ 0 then timerStop { ui with timer := { ui.timer with
    left := ui.timer.left - 1 } }
  else { ui with timer := { ui.timer with left := ui.timer.left - 1 } }

/-! ## HTML escaping (`esc`) -/

/-- The double-quote character. -/
def dquote : Char := Char.ofNat 34

/-- The apostrophe character. -/
def squote : Char := Char.ofNat 39

/-- Replacement of every occurrence of the character `c` by `rep`, left to
right, on the characters of a string. -/
def replaceChar (c : Char) (rep : List Char) : List Char → List Char
  | [] => []
  | x :: xs => if x = c then rep ++ replaceChar c rep xs else x :: replaceChar c rep xs

/-- Embeds `s.replaceAll(c, rep)` for a pattern `c` of one character and a
replacement without `$`. -/
def replaceAll (s : String) (c : Char) (rep : String) : String :=
  String.mk (replaceChar c rep.data s.data)

/-- Embeds `esc(v)` for a string `v`. -/
def esc (v : String) : String :=
  replaceAll (replaceAll (replaceAll (replaceAll (replaceAll v '&' "&amp;") '<' "&lt;")
    '>' "&gt;") dquote "&quot;") squote "&#039;"

/-- The five entities that `esc` writes, each with the character it stands
for. -/
def entities : List (List Char × Char) :=
  [("&amp;".data, '&'), ("&lt;".data, '<'), ("&gt;".data, '>'), ("&quot;".data, dquote),
   ("&#039;".data, squote)]

/-- The entity that starts the given characters, if one does: its length and
the character it stands for. -/
def entityAt (l : List Char) : Option (Nat × Char) :=
  (entities.find? fun e => e.1.isPrefixOf l).map fun e => (e.1.length, e.2)

/-- Decoding of the five entities in one pass from left to right, as a reader of
the escaped text does it: `skip` counts the characters left of an entity that
has already been decoded.  Not a function of the script. -/
def unescFrom : Nat → List Char → List Char
  | _, [] => []
  | skip + 1, _ :: r => unescFrom skip r
  | 0, c :: r =>
    match entityAt (c :: r) with
    | some (len, ch) => ch :: unescFrom (len - 1) r
    | none => c :: unescFrom 0 r

/-- Replacement of the five entities in a string by the characters they stand
for.  Not a function of the script. -/
def unesc (s : String) : String := String.mk (unescFrom 0 s.data)

/-- What the five replacements of `esc` make of one character. -/
def escChar (c : Char) : List Char :=
  if c = '&' then "&amp;".data
  else if c = '<' then "&lt;".data
  else if c = '>' then "&gt;".data
  else if c = dquote then "&quot;".data
  else if c = squote then "&#039;".data
  else [c]

/-- The five replacements of `esc`, in its order, on the characters of a
string. -/
def escChars (l : List Char) : List Char :=
  replaceChar squote "&#039;".data (replaceChar dquote "&quot;".data
    (replaceChar '>' "&gt;".data (replaceChar '<' "&lt;".data
      (replaceChar '&' "&amp;".data l))))

/-! ## A concrete platform and a concrete seed, for evaluating the handlers -/

/-- ASCII lower-casing of a string. -/
def asciiLower (s : String) : String := String.mk (s.data.map Char.toLower)

/-- Removal of leading and trailing ASCII white space. -/
def asciiTrim (s : String) : String :=
  String.mk ((s.data.dropWhile Char.isWhitespace).reverse.dropWhile Char.isWhitespace).reverse

/-- Reads a string of decimal digits as a count of milliseconds. -/
def digitsDate (s : String) : Option Int :=
  if s.data ≠ [] ∧ s.data.all Char.isDigit then
    some (s.data.foldl (fun n c => 10 * n + ((c.toNat : Int) - 48)) 0)
  else none

/-- A platform on ASCII input: the fallback branch of `hashPw` without the
base-64 step, and instants written as decimal milliseconds. -/
def demoPlatform : Platform :=
  { trim := asciiTrim,
    toLowerCase := asciiLower,
    hashPw := fun p => "fallback_" ++ p,
    parseDate := digitsDate,
    toNumber := fun s => (digitsDate s).getD 0,
    parseNumber := fun s =>
      match digitsDate s with
      | some n => JsNumber.fin n
      | none => JsNumber.nan,
    offsetAt := fun _ => 0,
    offsetOfLocal := fun _ => 0 }

/-- Ids and clock for a concrete seed. -/
def demoEnv : SeedEnv :=
  { tutorId := "u_t", studentId := "u_s", l1Id := "l_1", l2Id := "l_2", mId := "m_1",
    wId := "w_1", now := 1000 }

/-- The seeded database on the demo platform. -/
def demoDb : DB := seed demoPlatform demoEnv

/-- The demo state after the seeded student signed in, booked the seeded tutor
and the request was declined. -/
def demoBooked : State :=
  ⟨respond (bookSubmit demoPlatform
      (signIn demoPlatform ⟨demoDb, ⟨none⟩⟩ "student@example.com" "demo123").state.db
      (seedStudent demoPlatform demoEnv) ⟨"u_t", "200000000", "Grammar", "30"⟩ 5000
      "l_3").state "l_3" "decline",
    (signIn demoPlatform ⟨demoDb, ⟨none⟩⟩ "student@example.com" "demo123").state.session⟩

/-- The demo database after the seeded student booked the seeded tutor and the
request was accepted. -/
def demoAcceptedDb : DB :=
  respond (bookSubmit demoPlatform demoDb (seedStudent demoPlatform demoEnv)
    ⟨"u_t", "200000000", "Grammar", "30"⟩ 5000 "l_3").state "l_3" "accept"

/-- The initial `S.ui` with the lesson room of the seeded lesson as route. -/
def demoRoomUi : Ui :=
  { route := { name := "room", param := some "l_1" },
    timer := { id := none, left := 1500 },
    trial := { idx := 0, score := 0, left := 60, timerId := none, done := false,
               congratsShown := false } }

/-- A string with each of the five characters that `esc` replaces. -/
def demoMarkup : String := String.mk ['<', 'b', '>', '&', dquote, squote]

/-- The demo platform in a zone whose clocks go forward by one hour at the
instant 360000000 (100 hours): offset 0 before, one hour from then on; a local
time inside the skipped hour is read with the offset before the change. -/
def springPlatform : Platform :=
  { demoPlatform with
    offsetAt := fun t => if t < 360000000 then 0 else 3600000,
    offsetOfLocal := fun x => if x < 363600000 then 0 else 3600000 }

/-- The seeded database with two lessons of the seeded student instead, one
167.5 hours and one 166 hours after instant 0. -/
def springDb : DB :=
  { demoDb with lessons :=
      [{ id := "x", studentId := "u_s", tutorId := "u_t", datetime := 603000000,
         type := "Grammar", duration := 30, status := "pending", createdAt := 0 },
       { id := "y", studentId := "u_s", tutorId := "u_t", datetime := 597600000,
         type := "Grammar", duration := 30, status := "accepted", createdAt := 0 }] }

/-- The seeded database with two quiz results of the seeded student: 23 out of
40 and 2 out of 3. -/
def demoQuizDb : DB :=
  { demoDb with progress :=
      [("u_s", { quizResults := [⟨23, 40, 1000⟩, ⟨2, 3, 1000⟩], vocabKnown := [],
                 writingSubmissions := [] })] }

end EnglishTutor

namespace EnglishTutor

/-! ## Shared lemmas -/

theorem mem_userLessons {db : DB} {u : User} {l : Lesson} (h : l ∈ userLessons db u) :
    l ∈ db.lessons := by
  unfold userLessons at h
  split at h <;> exact (List.mem_filter.mp h).1

theorem mem_lessonsAll {db : DB} {u : User} {l : Lesson} (h : l ∈ lessonsAll db u) :
    l ∈ db.lessons :=
  mem_userLessons ((List.mem_insertionSort _).mp h)

theorem setStatus_of_forall_ne (lid st : String) (ls : List Lesson)
    (h : ∀ x ∈ ls, x.id ≠ lid) : setStatus lid st ls = ls := by
  induction ls with
  | nil => rfl
  | cons x xs ih =>
    have hx : x.id ≠ lid := h x (List.mem_cons_self _ _)
    simp only [setStatus, if_neg hx]
    rw [ih fun y hy => h y (List.mem_cons_of_mem _ hy)]

theorem setStatus_eq_map (lid st : String) (ls : List Lesson)
    (hid : ls.Pairwise fun x y => x.id ≠ y.id) :
    setStatus lid st ls =
      ls.map fun x => if x.id = lid then { x with status := st } else x := by
  induction ls with
  | nil => rfl
  | cons x xs ih =>
    rw [List.pairwise_cons] at hid
    by_cases hx : x.id = lid
    · have hrest : ∀ y ∈ xs, y.id ≠ lid := fun y hy => hx ▸ (hid.1 y hy).symm
      have hmap : (xs.map fun y => if y.id = lid then { y with status := st } else y) = xs := by
        conv_rhs => rw [← List.map_id xs]
        exact List.map_congr_left fun y hy => by simp [hrest y hy]
      simp only [setStatus, if_pos hx, List.map_cons, hmap]
    · simp only [setStatus, if_neg hx, List.map_cons, ih hid.2]

theorem respond_of_forall_ne (db : DB) (lid a : String) (h : ∀ x ∈ db.lessons, x.id ≠ lid) :
    respond db lid a = db := by
  have hnone : (db.lessons.find? fun x => x.id = lid) = none := by
    rw [List.find?_eq_none]
    intro x hx
    simpa using h x hx
  simp only [respond, hnone]

theorem respond_of_mem (db : DB) (lid a : String) {l : Lesson} (hl : l ∈ db.lessons)
    (hlid : l.id = lid) :
    respond db lid a =
      { db with lessons :=
          setStatus lid (if a = "accept" then "accepted" else "declined") db.lessons } := by
  unfold respond
  cases hf : db.lessons.find? fun x => x.id = lid with
  | none =>
    rw [List.find?_eq_none] at hf
    exact absurd (by simpa using hlid) (hf l hl)
  | some _ => rfl

theorem setStatus_statusOnly (lid st : String) (ls : List Lesson) :
    List.Forall₂ (fun x y : Lesson => y = x ∨ y = { x with status := st }) ls
      (setStatus lid st ls) := by
  induction ls with
  | nil => exact List.Forall₂.nil
  | cons x xs ih =>
    unfold setStatus
    split
    · exact List.Forall₂.cons (Or.inr rfl) (List.forall₂_same.mpr fun _ _ => Or.inl rfl)
    · exact List.Forall₂.cons (Or.inl rfl) ih

theorem respond_statusOnly (db : DB) (lid a : String) :
    List.Forall₂ (fun x y : Lesson =>
        y = x ∨ y = { x with status := "accepted" } ∨ y = { x with status := "declined" })
      db.lessons (respond db lid a).lessons := by
  unfold respond
  split
  · exact List.forall₂_same.mpr fun _ _ => Or.inl rfl
  · by_cases ha : a = "accept"
    · simp only [ha, if_true]
      exact List.Forall₂.imp (fun _ _ h => h.elim Or.inl fun h2 => Or.inr (Or.inl h2))
        (setStatus_statusOnly lid "accepted" db.lessons)
    · simp only [ha, if_false]
      exact List.Forall₂.imp (fun _ _ h => h.elim Or.inl fun h2 => Or.inr (Or.inr h2))
        (setStatus_statusOnly lid "declined" db.lessons)

/-! ## Accept / decline -/

/-- C1, as stated, fails: on a lesson that is already accepted the handler run
with the decline decision stores the status declined. -/
theorem respond_overwrites_accepted :
    (demoDb.lessons.map fun l => (l.id, l.status)) = [("l_1", "accepted"), ("l_2", "pending")] ∧
    ((respond demoDb "l_1" "decline").lessons.map fun l => (l.id, l.status)) =
      [("l_1", "declined"), ("l_2", "pending")] ∧
    respond demoDb "l_1" "decline" ≠ demoDb := by
  decide

/-- C1, amended: with distinct lesson ids, a response given through a button that
`tutorReqHtml` rendered acts on a pending lesson (buttons exist for pending
lessons only), stores accepted for Accept and declined for Decline on exactly
that lesson, and changes nothing else; a response to an unknown id changes
nothing; and any response leaves each lesson as it was or replaces only its
status, by accepted or declined, never by pending. -/
theorem respond_offered_button (db : DB) (u : User) (a lid : String)
    (hid : db.lessons.Pairwise fun x y => x.id ≠ y.id)
    (hb : (a, lid) ∈ tutorReqButtons (lessonsAll db u)) :
    (∃ l ∈ db.lessons, l.id = lid ∧ l.status = "pending" ∧
      ((a = "accept" ∧ respond db lid a = { db with lessons := db.lessons.map fun x =>
          if x.id = lid then { x with status := "accepted" } else x }) ∨
       (a = "decline" ∧ respond db lid a = { db with lessons := db.lessons.map fun x =>
          if x.id = lid then { x with status := "declined" } else x }))) ∧
    (∀ lid2 a2 : String, (∀ x ∈ db.lessons, x.id ≠ lid2) → respond db lid2 a2 = db) ∧
    ∀ lid2 a2 : String, List.Forall₂ (fun x y : Lesson =>
        y = x ∨ y = { x with status := "accepted" } ∨ y = { x with status := "declined" })
      db.lessons (respond db lid2 a2).lessons := by
  refine ⟨?_, fun lid2 a2 h => respond_of_forall_ne db lid2 a2 h,
    fun lid2 a2 => respond_statusOnly db lid2 a2⟩
  simp only [tutorReqButtons, List.mem_flatten, List.mem_map, List.mem_filter] at hb
  obtain ⟨btns, ⟨l, ⟨hl, hpend⟩, rfl⟩, hmem⟩ := hb
  have hpend2 : l.status = "pending" := by simpa using hpend
  have hldb : l ∈ db.lessons := mem_lessonsAll hl
  simp only [List.mem_cons, Prod.mk.injEq, List.mem_singleton, List.not_mem_nil, or_false] at hmem
  rcases hmem with ⟨ha, hlid⟩ | ⟨ha, hlid⟩
  · refine ⟨l, hldb, hlid.symm, hpend2, Or.inl ⟨ha, ?_⟩⟩
    rw [respond_of_mem db lid a hldb hlid.symm, setStatus_eq_map _ _ _ hid, ha]
    simp
  · refine ⟨l, hldb, hlid.symm, hpend2, Or.inr ⟨ha, ?_⟩⟩
    rw [respond_of_mem db lid a hldb hlid.symm, setStatus_eq_map _ _ _ hid, ha]
    simp

/-- Instance of `respond_offered_button`: the tutor declines the pending seeded
lesson. -/
theorem respond_offered_button_witness :
    (∃ l ∈ demoDb.lessons, l.id = "l_2" ∧ l.status = "pending" ∧
      (("decline" = "accept" ∧ respond demoDb "l_2" "decline" =
          { demoDb with lessons := demoDb.lessons.map fun x =>
            if x.id = "l_2" then { x with status := "accepted" } else x }) ∨
       ("decline" = "decline" ∧ respond demoDb "l_2" "decline" =
          { demoDb with lessons := demoDb.lessons.map fun x =>
            if x.id = "l_2" then { x with status := "declined" } else x }))) ∧
    (∀ lid2 a2 : String, (∀ x ∈ demoDb.lessons, x.id ≠ lid2) →
      respond demoDb lid2 a2 = demoDb) ∧
    ∀ lid2 a2 : String, List.Forall₂ (fun x y : Lesson =>
        y = x ∨ y = { x with status := "accepted" } ∨ y = { x with status := "declined" })
      demoDb.lessons (respond demoDb lid2 a2).lessons :=
  respond_offered_button demoDb (seedTutor demoPlatform demoEnv) "decline" "l_2"
    (by decide) (by decide)

/-! ## Sign-in -/

/-- C2, as stated, fails: for the seeded student's email and the empty password
(which is not that user's password) the handler reports the missing-field
failure, not the incorrect-password failure. -/
theorem signIn_empty_password_not_incorrect :
    (∃ u ∈ demoDb.users,
      demoPlatform.toLowerCase u.email =
        demoPlatform.toLowerCase (demoPlatform.trim "student@example.com") ∧
      demoPlatform.hashPw "" ≠ u.passwordHash) ∧
    (signIn demoPlatform ⟨demoDb, ⟨none⟩⟩ "student@example.com" "").error =
      some "Email and password required." ∧
    (signIn demoPlatform ⟨demoDb, ⟨none⟩⟩ "student@example.com" "").error ≠
      some "Incorrect password." := by
  decide

/-- C2, amended: a sign-in with a non-empty password and a non-empty normalised
email that matches a stored user, where the password does not hash to the
stored hash of any matching user, reports the incorrect-password failure and
leaves the state, hence the session's currentUserId, as it was; with an empty
password the handler reports the missing-field failure and leaves the state as
it was. -/
theorem signIn_wrong_password (P : Platform) (s : State) (rawEmail rawPw : String)
    (hemail : P.toLowerCase (P.trim rawEmail) ≠ "")
    (hpw : rawPw ≠ "")
    (hmatch : ∃ u ∈ s.db.users, P.toLowerCase u.email = P.toLowerCase (P.trim rawEmail))
    (hwrong : ∀ u ∈ s.db.users, P.toLowerCase u.email = P.toLowerCase (P.trim rawEmail) →
      P.hashPw rawPw ≠ u.passwordHash) :
    ((signIn P s rawEmail rawPw).error = some "Incorrect password." ∧
      (signIn P s rawEmail rawPw).state = s ∧
      (signIn P s rawEmail rawPw).state.session.currentUserId = s.session.currentUserId) ∧
    ((signIn P s rawEmail "").error = some "Email and password required." ∧
      (signIn P s rawEmail "").state = s) := by
  constructor
  · unfold signIn
    simp only [hemail, hpw, or_self, if_false]
    cases hf : s.db.users.find? fun x => P.toLowerCase x.email = P.toLowerCase (P.trim rawEmail) with
    | none =>
      obtain ⟨u, hu, he⟩ := hmatch
      rw [List.find?_eq_none] at hf
      exact absurd (by simpa using he) (hf u hu)
    | some u =>
      have hu : u ∈ s.db.users := List.mem_of_find?_eq_some hf
      have he : P.toLowerCase u.email = P.toLowerCase (P.trim rawEmail) := by
        simpa using List.find?_some hf
      simp [hwrong u hu he]
  · simp [signIn]

/-- Instance of `signIn_wrong_password`: the seeded student with a wrong
password while the tutor is signed in. -/
theorem signIn_wrong_password_witness :
    ((signIn demoPlatform ⟨demoDb, ⟨some "u_t"⟩⟩ " Student@Example.com " "demo124").error =
        some "Incorrect password." ∧
      (signIn demoPlatform ⟨demoDb, ⟨some "u_t"⟩⟩ " Student@Example.com " "demo124").state =
        ⟨demoDb, ⟨some "u_t"⟩⟩ ∧
      (signIn demoPlatform ⟨demoDb, ⟨some "u_t"⟩⟩ " Student@Example.com "
        "demo124").state.session.currentUserId = some "u_t") ∧
    ((signIn demoPlatform ⟨demoDb, ⟨some "u_t"⟩⟩ " Student@Example.com " "").error =
        some "Email and password required." ∧
      (signIn demoPlatform ⟨demoDb, ⟨some "u_t"⟩⟩ " Student@Example.com " "").state =
        ⟨demoDb, ⟨some "u_t"⟩⟩) :=
  signIn_wrong_password demoPlatform ⟨demoDb, ⟨some "u_t"⟩⟩ " Student@Example.com " "demo124"
    (by decide) (by decide) (by decide) (by decide)

/-! ## Sign-up -/

theorem jsLength_pos_of_ne {s : String} (h : 6 ≤ jsLength s) : s ≠ "" := by
  rintro rfl
  simp [jsLength] at h

theorem any_email_eq_false {P : Platform} {users : List User} {email : String}
    (h : ∀ u ∈ users, P.toLowerCase u.email ≠ email) :
    (users.any fun u => P.toLowerCase u.email = email) = false := by
  rw [List.any_eq_false]
  intro u hu
  simpa using h u hu

theorem signUp_ok (P : Platform) (s : State) (f : SignUpForm) (newId : String) (now : Int)
    (hname : P.trim f.name ≠ "")
    (hemail : P.toLowerCase (P.trim f.email) ≠ "")
    (hpw : 6 ≤ jsLength f.password)
    (hfresh : ∀ u ∈ s.db.users, P.toLowerCase u.email ≠ P.toLowerCase (P.trim f.email)) :
    signUp P s f newId now =
      ⟨none, { db := ensureProgress { s.db with users := s.db.users ++
                [{ id := newId, name := P.trim f.name, email := P.toLowerCase (P.trim f.email),
                   role := if f.role = "" then "Student" else f.role,
                   passwordHash := P.hashPw f.password, createdAt := now }] } newId,
               session := { currentUserId := some newId } }⟩ := by
  have hpw0 : f.password ≠ "" := jsLength_pos_of_ne hpw
  have hlen : ¬ jsLength f.password < 6 := Nat.not_lt.mpr hpw
  simp only [signUp, hname, hemail, hpw0, or_self, if_false, hlen, any_email_eq_false hfresh,
    Bool.false_eq_true]

theorem ensureProgress_users (db : DB) (uid : String) : (ensureProgress db uid).users = db.users := by
  unfold ensureProgress
  split <;> rfl

theorem ensureProgress_lessons (db : DB) (uid : String) :
    (ensureProgress db uid).lessons = db.lessons := by
  unfold ensureProgress
  split <;> rfl

/-- C3: a sign-up with a non-empty name, a non-empty email that no stored user
has (ignoring case) and a password of at least 6 characters succeeds and appends
one user with the drawn id; a sign-in with the same email and password on the
resulting database, whatever the session then is, succeeds and sets
currentUserId to that id.  The lower-casing primitive is assumed to fix its own
result on the given email. -/
theorem signUp_then_signIn (P : Platform) (s : State) (f : SignUpForm) (newId : String)
    (now : Int)
    (hlow : P.toLowerCase (P.toLowerCase (P.trim f.email)) = P.toLowerCase (P.trim f.email))
    (hname : P.trim f.name ≠ "")
    (hemail : P.toLowerCase (P.trim f.email) ≠ "")
    (hpw : 6 ≤ jsLength f.password)
    (hfresh : ∀ u ∈ s.db.users, P.toLowerCase u.email ≠ P.toLowerCase (P.trim f.email)) :
    (signUp P s f newId now).error = none ∧
    (∃ u : User, (signUp P s f newId now).state.db.users = s.db.users ++ [u] ∧ u.id = newId ∧
      (signUp P s f newId now).state.session.currentUserId = some u.id ∧
      ∀ sess : Session,
        (signIn P ⟨(signUp P s f newId now).state.db, sess⟩ f.email f.password).error = none ∧
        (signIn P ⟨(signUp P s f newId now).state.db, sess⟩ f.email
          f.password).state.session.currentUserId = some u.id ∧
        (signIn P ⟨(signUp P s f newId now).state.db, sess⟩ f.email f.password).state.db =
          (signUp P s f newId now).state.db) := by
  rw [signUp_ok P s f newId now hname hemail hpw hfresh]
  refine ⟨rfl, _, ensureProgress_users _ _, rfl, rfl, fun sess => ?_⟩
  have hpw0 : f.password ≠ "" := jsLength_pos_of_ne hpw
  have hnone : (s.db.users.find? fun x =>
      P.toLowerCase x.email = P.toLowerCase (P.trim f.email)) = none := by
    rw [List.find?_eq_none]
    intro u hu
    simpa using hfresh u hu
  simp [signIn, hemail, hpw0, ensureProgress_users, List.find?_append, hnone, hlow]

/-- Instance of `signUp_then_signIn` on the seeded database. -/
theorem signUp_then_signIn_witness :
    (signUp demoPlatform ⟨demoDb, ⟨none⟩⟩ ⟨" Ada ", " Ada@Example.com", "secret", "Tutor"⟩
      "u_a" 2000).error = none ∧
    (∃ u : User,
      (signUp demoPlatform ⟨demoDb, ⟨none⟩⟩ ⟨" Ada ", " Ada@Example.com", "secret", "Tutor"⟩
        "u_a" 2000).state.db.users = demoDb.users ++ [u] ∧ u.id = "u_a" ∧
      (signUp demoPlatform ⟨demoDb, ⟨none⟩⟩ ⟨" Ada ", " Ada@Example.com", "secret", "Tutor"⟩
        "u_a" 2000).state.session.currentUserId = some u.id ∧
      ∀ sess : Session,
        (signIn demoPlatform ⟨(signUp demoPlatform ⟨demoDb, ⟨none⟩⟩
          ⟨" Ada ", " Ada@Example.com", "secret", "Tutor"⟩ "u_a" 2000).state.db, sess⟩
          " Ada@Example.com" "secret").error = none ∧
        (signIn demoPlatform ⟨(signUp demoPlatform ⟨demoDb, ⟨none⟩⟩
          ⟨" Ada ", " Ada@Example.com", "secret", "Tutor"⟩ "u_a" 2000).state.db, sess⟩
          " Ada@Example.com" "secret").state.session.currentUserId = some u.id ∧
        (signIn demoPlatform ⟨(signUp demoPlatform ⟨demoDb, ⟨none⟩⟩
          ⟨" Ada ", " Ada@Example.com", "secret", "Tutor"⟩ "u_a" 2000).state.db, sess⟩
          " Ada@Example.com" "secret").state.db =
          (signUp demoPlatform ⟨demoDb, ⟨none⟩⟩ ⟨" Ada ", " Ada@Example.com", "secret", "Tutor"⟩
            "u_a" 2000).state.db) :=
  signUp_then_signIn demoPlatform ⟨demoDb, ⟨none⟩⟩ ⟨" Ada ", " Ada@Example.com", "secret", "Tutor"⟩
    "u_a" 2000 (by decide) (by decide) (by decide) (by decide) (by decide)

/-! ## Sign-up: failure conditions -/

theorem signUp_error_or_ok (P : Platform) (s : State) (f : SignUpForm) (newId : String)
    (now : Int) :
    ((signUp P s f newId now).error ≠ none ∧ (signUp P s f newId now).state = s ∧
      (P.trim f.name = "" ∨ P.toLowerCase (P.trim f.email) = "" ∨ f.password = "" ∨
        jsLength f.password < 6 ∨
        ∃ u ∈ s.db.users, P.toLowerCase u.email = P.toLowerCase (P.trim f.email))) ∨
    ((signUp P s f newId now).error = none ∧
      (signUp P s f newId now).state.db.lessons = s.db.lessons ∧
      (∃ u : User, u.id = newId ∧ u.email = P.toLowerCase (P.trim f.email) ∧
        (signUp P s f newId now).state.db.users = s.db.users ++ [u]) ∧
      ¬ (P.trim f.name = "" ∨ P.toLowerCase (P.trim f.email) = "" ∨ f.password = "" ∨
        jsLength f.password < 6 ∨
        ∃ u ∈ s.db.users, P.toLowerCase u.email = P.toLowerCase (P.trim f.email))) := by
  by_cases h1 : P.trim f.name = "" ∨ P.toLowerCase (P.trim f.email) = "" ∨ f.password = ""
  · left
    refine ⟨by simp [signUp, h1], by simp [signUp, h1], ?_⟩
    rcases h1 with h | h | h
    · exact Or.inl h
    · exact Or.inr (Or.inl h)
    · exact Or.inr (Or.inr (Or.inl h))
  · by_cases h2 : jsLength f.password < 6
    · left
      exact ⟨by simp [signUp, h1, h2], by simp [signUp, h1, h2],
        Or.inr (Or.inr (Or.inr (Or.inl h2)))⟩
    · by_cases h3 : ∃ u ∈ s.db.users, P.toLowerCase u.email = P.toLowerCase (P.trim f.email)
      · left
        have hany : (s.db.users.any fun u =>
            P.toLowerCase u.email = P.toLowerCase (P.trim f.email)) = true := by
          rw [List.any_eq_true]
          obtain ⟨u, hu, he⟩ := h3
          exact ⟨u, hu, by simpa using he⟩
        exact ⟨by simp [signUp, h1, h2, hany], by simp [signUp, h1, h2, hany],
          Or.inr (Or.inr (Or.inr (Or.inr h3)))⟩
      · right
        have hfresh : ∀ u ∈ s.db.users,
            P.toLowerCase u.email ≠ P.toLowerCase (P.trim f.email) :=
          fun u hu he => h3 ⟨u, hu, he⟩
        have hn : P.trim f.name ≠ "" := fun h => h1 (Or.inl h)
        have he : P.toLowerCase (P.trim f.email) ≠ "" := fun h => h1 (Or.inr (Or.inl h))
        rw [signUp_ok P s f newId now hn he (Nat.not_lt.mp h2) hfresh]
        refine ⟨rfl, ensureProgress_lessons _ _, ⟨_, rfl, rfl, ensureProgress_users _ _⟩, ?_⟩
        rintro (h | h | h | h | h)
        · exact h1 (Or.inl h)
        · exact h1 (Or.inr (Or.inl h))
        · exact h1 (Or.inr (Or.inr h))
        · exact h2 h
        · exact h3 h

/-- C4: sign-up fails exactly when the trimmed name is empty, the trimmed email
is empty, the password is empty or shorter than 6 code units, or a stored
user's email equals the trimmed email ignoring case; a failed sign-up leaves the
users list, the progress map and the session as they were.  The lower-casing
primitive is assumed to return the empty string on the trimmed email only when
that is empty. -/
theorem signUp_fails_iff (P : Platform) (s : State) (f : SignUpForm) (newId : String)
    (now : Int)
    (hlow : P.toLowerCase (P.trim f.email) = "" ↔ P.trim f.email = "") :
    ((signUp P s f newId now).error ≠ none ↔
      (P.trim f.name = "" ∨ P.trim f.email = "" ∨ f.password = "" ∨ jsLength f.password < 6 ∨
        ∃ u ∈ s.db.users, P.toLowerCase u.email = P.toLowerCase (P.trim f.email))) ∧
    ((signUp P s f newId now).error ≠ none →
      (signUp P s f newId now).state.db.users = s.db.users ∧
      (signUp P s f newId now).state.db.progress = s.db.progress ∧
      (signUp P s f newId now).state.session = s.session) := by
  rw [← hlow]
  rcases signUp_error_or_ok P s f newId now with ⟨herr, hst, hc⟩ | ⟨hok, _, _, hc⟩
  · exact ⟨⟨fun _ => hc, fun _ => herr⟩, fun _ => by rw [hst]; exact ⟨rfl, rfl, rfl⟩⟩
  · exact ⟨⟨fun h => absurd hok h, fun h => absurd h hc⟩, fun h => absurd hok h⟩

/-- Instance of `signUp_fails_iff`: a sign-up with an email that differs from the
seeded student's only in case and white space. -/
theorem signUp_fails_iff_witness :
    ((signUp demoPlatform ⟨demoDb, ⟨some "u_t"⟩⟩
        ⟨"Liam", " STUDENT@example.com ", "secret", "Student"⟩ "u_b" 3000).error ≠ none ↔
      (demoPlatform.trim "Liam" = "" ∨ demoPlatform.trim " STUDENT@example.com " = "" ∨
        "secret" = "" ∨ jsLength "secret" < 6 ∨
        ∃ u ∈ demoDb.users, demoPlatform.toLowerCase u.email =
          demoPlatform.toLowerCase (demoPlatform.trim " STUDENT@example.com "))) ∧
    ((signUp demoPlatform ⟨demoDb, ⟨some "u_t"⟩⟩
        ⟨"Liam", " STUDENT@example.com ", "secret", "Student"⟩ "u_b" 3000).error ≠ none →
      (signUp demoPlatform ⟨demoDb, ⟨some "u_t"⟩⟩
        ⟨"Liam", " STUDENT@example.com ", "secret", "Student"⟩ "u_b" 3000).state.db.users =
          demoDb.users ∧
      (signUp demoPlatform ⟨demoDb, ⟨some "u_t"⟩⟩
        ⟨"Liam", " STUDENT@example.com ", "secret", "Student"⟩ "u_b" 3000).state.db.progress =
          demoDb.progress ∧
      (signUp demoPlatform ⟨demoDb, ⟨some "u_t"⟩⟩
        ⟨"Liam", " STUDENT@example.com ", "secret", "Student"⟩ "u_b" 3000).state.session =
          ⟨some "u_t"⟩) :=
  signUp_fails_iff demoPlatform ⟨demoDb, ⟨some "u_t"⟩⟩
    ⟨"Liam", " STUDENT@example.com ", "secret", "Student"⟩ "u_b" 3000 (by decide)

/-! ## Uniqueness of emails -/

theorem toNat_ofNat_of_lt (m : Nat) (h : m < 55296) : (Char.ofNat m).toNat = m := by
  have hv : m.isValidChar := Or.inl h
  simp [Char.ofNat, hv, Char.ofNatAux, Char.toNat, UInt32.toNat]

theorem toLower_of_not_upper (d : Char) (h : ¬ (d.toNat ≥ 65 ∧ d.toNat ≤ 90)) :
    d.toLower = d := by
  simp only [Char.toLower, h, if_false]

theorem char_toLower_toLower (c : Char) : c.toLower.toLower = c.toLower := by
  by_cases h : c.toNat ≥ 65 ∧ c.toNat ≤ 90
  · have h1 : c.toLower = Char.ofNat (c.toNat + 32) := by simp [Char.toLower, h]
    have h2 : c.toLower.toNat = c.toNat + 32 := by
      rw [h1]; exact toNat_ofNat_of_lt _ (by omega)
    exact toLower_of_not_upper _ (by omega)
  · rw [toLower_of_not_upper c h, toLower_of_not_upper c h]

theorem asciiLower_asciiLower (s : String) : asciiLower (asciiLower s) = asciiLower s := by
  have hfun : Char.toLower ∘ Char.toLower = Char.toLower := funext char_toLower_toLower
  simp [asciiLower, hfun]

theorem signUp_preserves_unique (P : Platform)
    (hidem : ∀ t : String, P.toLowerCase (P.toLowerCase t) = P.toLowerCase t)
    (s : State) (f : SignUpForm) (newId : String) (now : Int)
    (h : s.db.users.Pairwise fun a b => P.toLowerCase a.email ≠ P.toLowerCase b.email) :
    (signUp P s f newId now).state.db.users.Pairwise fun a b =>
      P.toLowerCase a.email ≠ P.toLowerCase b.email := by
  rcases signUp_error_or_ok P s f newId now with ⟨_, hst, _⟩ | ⟨_, _, ⟨u, _, hmail, husers⟩, hc⟩
  · rw [hst]; exact h
  · rw [husers, List.pairwise_append]
    refine ⟨h, List.pairwise_singleton _ _, ?_⟩
    intro a ha b hb
    rw [List.mem_singleton] at hb
    subst hb
    rw [hmail, hidem]
    intro he
    exact hc (Or.inr (Or.inr (Or.inr (Or.inr ⟨a, ha, he⟩))))

/-- C5: in every state reached from the seed database by sign-up submissions,
successful or not, the emails at two different positions of the users list
differ even after lower-casing.  The lower-casing primitive is assumed to fix
its own results and to keep the two seeded addresses apart. -/
theorem signUp_emails_unique (P : Platform)
    (hidem : ∀ t : String, P.toLowerCase (P.toLowerCase t) = P.toLowerCase t)
    (hseed : P.toLowerCase "tutor@example.com" ≠ P.toLowerCase "student@example.com")
    (s : State) (hs : SignUpReachable P s) :
    s.db.users.Pairwise fun a b => P.toLowerCase a.email ≠ P.toLowerCase b.email := by
  induction hs with
  | seeded e sess =>
    simp only [seed, seedTutor, seedStudent, List.pairwise_cons, List.mem_singleton,
      forall_eq, List.not_mem_nil, false_implies, implies_true, List.Pairwise.nil, and_true]
    exact hseed
  | signUp f newId now _ ih => exact signUp_preserves_unique P hidem _ f newId now ih

/-- Instance of `signUp_emails_unique`: the seed followed by a successful and a
rejected sign-up. -/
theorem signUp_emails_unique_witness :
    (signUp demoPlatform (signUp demoPlatform ⟨demoDb, ⟨none⟩⟩
      ⟨"Ada", "ada@example.com", "secret", "Tutor"⟩ "u_a" 2000).state
      ⟨"Ada B", "ADA@example.com", "secret2", "Student"⟩ "u_b" 3000).state.db.users.Pairwise
      fun a b => demoPlatform.toLowerCase a.email ≠ demoPlatform.toLowerCase b.email :=
  signUp_emails_unique demoPlatform asciiLower_asciiLower (by decide) _
    (SignUpReachable.signUp _ _ _ (SignUpReachable.signUp _ _ _
      (SignUpReachable.seeded demoEnv ⟨none⟩)))

/-! ## Booking -/

theorem bookSubmit_cases (P : Platform) (db : DB) (u : User) (f : BookForm) (now : Int)
    (newId : String) :
    ((f.datetime = "" ∨ P.parseDate f.datetime = none ∨
        ∃ dt, P.parseDate f.datetime = some dt ∧ dt ≤ now) ∧
      (bookSubmit P db u f now newId).error ≠ none ∧ (bookSubmit P db u f now newId).state = db) ∨
    (∃ dt l, f.datetime ≠ "" ∧ P.parseDate f.datetime = some dt ∧ now < dt ∧
      (bookSubmit P db u f now newId).error = none ∧
      (bookSubmit P db u f now newId).state = { db with lessons := db.lessons ++ [l] } ∧
      l.status = "pending" ∧ l.studentId = u.id ∧ l.tutorId = f.tutorId ∧ l.datetime = dt) := by
  by_cases hraw : f.datetime = ""
  · left
    exact ⟨Or.inl hraw, by simp [bookSubmit, hraw], by simp [bookSubmit, hraw]⟩
  · cases hp : P.parseDate f.datetime with
    | none =>
      left
      exact ⟨Or.inr (Or.inl rfl), by simp [bookSubmit, hraw, hp], by simp [bookSubmit, hraw, hp]⟩
    | some dt =>
      by_cases hle : dt ≤ now
      · left
        exact ⟨Or.inr (Or.inr ⟨dt, rfl, hle⟩), by simp [bookSubmit, hraw, hp, hle],
          by simp [bookSubmit, hraw, hp, hle]⟩
      · right
        refine ⟨dt,
          { id := newId, studentId := u.id, tutorId := f.tutorId, datetime := dt,
            type := if f.type = "" then "Conversation" else f.type,
            duration := if f.duration = "" then 45 else P.toNumber f.duration,
            status := "pending", createdAt := now },
          hraw, rfl, not_le.mp hle, by simp [bookSubmit, hraw, hp, hle], ?_, rfl, rfl, rfl, rfl⟩
        simp only [bookSubmit, hraw, hp, hle, if_false]

/-- C6: when the raw datetime is empty, does not parse, or parses to an instant
not strictly after now, the booking handler fails and the lessons list is as
before; otherwise the handler succeeds and the lessons list is the old one
followed by one lesson with status pending, the current user's id as studentId
and the parsed instant as datetime. -/
theorem bookSubmit_spec (P : Platform) (s : State) (u : User) (f : BookForm) (now : Int)
    (newId : String) (hu : currentUser s = some u) :
    ((f.datetime = "" ∨ P.parseDate f.datetime = none ∨
        ∃ dt, P.parseDate f.datetime = some dt ∧ dt ≤ now) →
      (bookSubmit P s.db u f now newId).error ≠ none ∧
      (bookSubmit P s.db u f now newId).state.lessons = s.db.lessons) ∧
    (¬ (f.datetime = "" ∨ P.parseDate f.datetime = none ∨
        ∃ dt, P.parseDate f.datetime = some dt ∧ dt ≤ now) →
      ∃ dt l, P.parseDate f.datetime = some dt ∧
        (bookSubmit P s.db u f now newId).error = none ∧
        (bookSubmit P s.db u f now newId).state.lessons = s.db.lessons ++ [l] ∧
        l.status = "pending" ∧
        (currentUser s).map (fun v => v.id) = some l.studentId ∧
        l.datetime = dt) := by
  rcases bookSubmit_cases P s.db u f now newId with
    ⟨hbad, herr, hst⟩ | ⟨dt, l, hraw, hp, hlt, hok, hst, h1, h2, _, h4⟩
  · exact ⟨fun _ => ⟨herr, by rw [hst]⟩, fun h => absurd hbad h⟩
  · refine ⟨fun hbad => ?_, fun _ => ⟨dt, l, hp, hok, by rw [hst], h1, by simp [hu, h2], h4⟩⟩
    rcases hbad with h | h | ⟨dt2, h, hle⟩
    · exact absurd h hraw
    · rw [hp] at h; cases h
    · rw [hp] at h
      cases h
      exact absurd hlt (not_lt.mpr hle)

/-- Instance of `bookSubmit_spec`: the seeded student books the seeded tutor. -/
theorem bookSubmit_spec_witness :
    (("200000000" = "" ∨ demoPlatform.parseDate "200000000" = none ∨
        ∃ dt, demoPlatform.parseDate "200000000" = some dt ∧ dt ≤ 5000) →
      (bookSubmit demoPlatform demoDb (seedStudent demoPlatform demoEnv)
        ⟨"u_t", "200000000", "Grammar", "30"⟩ 5000 "l_3").error ≠ none ∧
      (bookSubmit demoPlatform demoDb (seedStudent demoPlatform demoEnv)
        ⟨"u_t", "200000000", "Grammar", "30"⟩ 5000 "l_3").state.lessons = demoDb.lessons) ∧
    (¬ ("200000000" = "" ∨ demoPlatform.parseDate "200000000" = none ∨
        ∃ dt, demoPlatform.parseDate "200000000" = some dt ∧ dt ≤ 5000) →
      ∃ dt l, demoPlatform.parseDate "200000000" = some dt ∧
        (bookSubmit demoPlatform demoDb (seedStudent demoPlatform demoEnv)
          ⟨"u_t", "200000000", "Grammar", "30"⟩ 5000 "l_3").error = none ∧
        (bookSubmit demoPlatform demoDb (seedStudent demoPlatform demoEnv)
          ⟨"u_t", "200000000", "Grammar", "30"⟩ 5000 "l_3").state.lessons =
            demoDb.lessons ++ [l] ∧
        l.status = "pending" ∧
        (currentUser ⟨demoDb, ⟨some "u_s"⟩⟩).map (fun v => v.id) = some l.studentId ∧
        l.datetime = dt) :=
  bookSubmit_spec demoPlatform ⟨demoDb, ⟨some "u_s"⟩⟩ (seedStudent demoPlatform demoEnv)
    ⟨"u_t", "200000000", "Grammar", "30"⟩ 5000 "l_3" (by decide)

/-! ## Lesson references -/

theorem mem_setStatus {lid st : String} {ls : List Lesson} {l : Lesson}
    (h : l ∈ setStatus lid st ls) :
    ∃ l0 ∈ ls, l.studentId = l0.studentId ∧ l.tutorId = l0.tutorId := by
  induction ls with
  | nil => simp [setStatus] at h
  | cons x xs ih =>
    unfold setStatus at h
    split at h
    · rcases List.mem_cons.mp h with rfl | hmem
      · exact ⟨x, List.mem_cons_self _ _, rfl, rfl⟩
      · exact ⟨l, List.mem_cons_of_mem _ hmem, rfl, rfl⟩
    · rcases List.mem_cons.mp h with rfl | hmem
      · exact ⟨l, List.mem_cons_self _ _, rfl, rfl⟩
      · obtain ⟨l0, hl0, h1, h2⟩ := ih hmem
        exact ⟨l0, List.mem_cons_of_mem _ hl0, h1, h2⟩

theorem respond_users (db : DB) (lid a : String) : (respond db lid a).users = db.users := by
  unfold respond
  split <;> rfl

theorem mem_respond_lessons {db : DB} {lid a : String} {l : Lesson}
    (h : l ∈ (respond db lid a).lessons) :
    ∃ l0 ∈ db.lessons, l.studentId = l0.studentId ∧ l.tutorId = l0.tutorId := by
  unfold respond at h
  split at h
  · exact ⟨l, h, rfl, rfl⟩
  · exact mem_setStatus h

theorem signIn_db (P : Platform) (s : State) (rawEmail rawPw : String) :
    (signIn P s rawEmail rawPw).state.db = s.db := by
  simp only [signIn]
  split
  · rfl
  · split
    · rfl
    · split <;> rfl

theorem refsResolve_seed (P : Platform) (e : SeedEnv) : RefsResolve (seed P e) := by
  refine ⟨?_, seedTutor P e, by simp [seed], rfl⟩
  intro l hl
  simp only [seed, List.mem_cons, List.mem_singleton, List.not_mem_nil, or_false] at hl
  rcases hl with rfl | rfl
  · exact ⟨⟨seedStudent P e, by simp [seed], rfl⟩, ⟨seedTutor P e, by simp [seed], rfl⟩⟩
  · exact ⟨⟨seedStudent P e, by simp [seed], rfl⟩, ⟨seedTutor P e, by simp [seed], rfl⟩⟩

theorem refsResolve_signUp (P : Platform) (s : State) (f : SignUpForm) (newId : String)
    (now : Int) (h : RefsResolve s.db) : RefsResolve (signUp P s f newId now).state.db := by
  rcases signUp_error_or_ok P s f newId now with ⟨_, hst, _⟩ | ⟨_, hless, ⟨u, _, _, husers⟩, _⟩
  · rw [hst]; exact h
  · obtain ⟨hl, t, ht, hrole⟩ := h
    refine ⟨fun l hmem => ?_, t, by rw [husers]; exact List.mem_append_left _ ht, hrole⟩
    rw [hless] at hmem
    obtain ⟨⟨a, ha, hae⟩, ⟨b, hb, hbe⟩⟩ := hl l hmem
    rw [husers]
    exact ⟨⟨a, List.mem_append_left _ ha, hae⟩, ⟨b, List.mem_append_left _ hb, hbe⟩⟩

theorem refsResolve_respond (db : DB) (lid a : String) (h : RefsResolve db) :
    RefsResolve (respond db lid a) := by
  obtain ⟨hl, ht⟩ := h
  refine ⟨fun l hmem => ?_, by rw [respond_users]; exact ht⟩
  obtain ⟨l0, hl0, h1, h2⟩ := mem_respond_lessons hmem
  rw [respond_users, h1, h2]
  exact hl l0 hl0

theorem refsResolve_book (P : Platform) (s : State) (u : User) (f : BookForm) (now : Int)
    (newId : String) (hu : currentUser s = some u)
    (hopt : f.tutorId ∈ bookingOptions s.db ∨ (bookingOptions s.db = [] ∧ f.tutorId = ""))
    (h : RefsResolve s.db) : RefsResolve (bookSubmit P s.db u f now newId).state := by
  rcases bookSubmit_cases P s.db u f now newId with
    ⟨_, _, hst⟩ | ⟨dt, l, _, _, _, _, hst, _, hstud, htut, _⟩
  · rw [hst]; exact h
  · obtain ⟨hl, t, ht, hrole⟩ := h
    rw [hst]
    refine ⟨fun x hx => ?_, t, ht, hrole⟩
    rcases List.mem_append.mp hx with hx | hx
    · exact hl x hx
    · rw [List.mem_singleton] at hx
      subst hx
      refine ⟨⟨u, List.mem_of_find?_eq_some hu, hstud.symm⟩, ?_⟩
      rcases hopt with hmem | ⟨hnil, _⟩
      · simp only [bookingOptions, List.mem_map, List.mem_filter] at hmem
        obtain ⟨v, ⟨hv, _⟩, hid⟩ := hmem
        exact ⟨v, hv, by rw [hid, htut]⟩
      · have : t.id ∈ bookingOptions s.db := by
          simp only [bookingOptions, List.mem_map, List.mem_filter]
          exact ⟨t, ⟨ht, by simpa using hrole⟩, rfl⟩
        rw [hnil] at this
        exact absurd this (List.not_mem_nil _)

theorem refsResolve_of_reachable (P : Platform) (s : State) (hs : Reachable P s) :
    RefsResolve s.db := by
  induction hs with
  | seeded e sess => exact refsResolve_seed P e
  | signUp f newId now _ ih => exact refsResolve_signUp P _ f newId now ih
  | signIn rawEmail rawPw _ ih => rw [signIn_db]; exact ih
  | signOut _ ih => exact ih
  | book f now newId _ hu _ hopt ih => exact refsResolve_book P _ _ f now newId hu hopt ih
  | respond lid a _ ih => exact refsResolve_respond _ lid a ih

/-- C7: in every state reached from the seed database through sign-up, sign-in,
sign-out, booking and accept/decline, the studentId and the tutorId of every
lesson are ids of users in the users list. -/
theorem lesson_refs_resolve (P : Platform) (s : State) (hs : Reachable P s) :
    ∀ l ∈ s.db.lessons,
      (∃ u ∈ s.db.users, u.id = l.studentId) ∧ (∃ t ∈ s.db.users, t.id = l.tutorId) :=
  (refsResolve_of_reachable P s hs).1

/-- Instance of `lesson_refs_resolve`: the seeded student signs in, books the
seeded tutor, and the request is declined. -/
theorem lesson_refs_resolve_witness :
    Reachable demoPlatform demoBooked ∧
    (demoBooked.db.lessons.map fun l => l.id) = ["l_1", "l_2", "l_3"] ∧
    ∀ l ∈ demoBooked.db.lessons,
      (∃ u ∈ demoBooked.db.users, u.id = l.studentId) ∧
      (∃ t ∈ demoBooked.db.users, t.id = l.tutorId) :=
  have hr : Reachable demoPlatform demoBooked :=
    Reachable.respond "l_3" "decline"
      (Reachable.book ⟨"u_t", "200000000", "Grammar", "30"⟩ 5000 "l_3"
        (Reachable.signIn "student@example.com" "demo123" (Reachable.seeded demoEnv ⟨none⟩))
        (by decide) (by decide) (by decide))
  ⟨hr, by decide, lesson_refs_resolve demoPlatform demoBooked hr⟩

/-! ## Upcoming lessons and weekly schedule -/

theorem userLessons_filter (db : DB) (u : User) (q : Lesson → Prop) [DecidablePred q] :
    (userLessons db u).filter (fun l => q l) =
      db.lessons.filter fun l =>
        (if u.role = "Tutor" then l.tutorId = u.id else l.studentId = u.id) ∧ q l := by
  unfold userLessons
  split <;> rename_i h <;> simp [List.filter_filter, h, and_comm]

theorem sorted_sortByDatetime (xs : List Lesson) :
    (sortByDatetime xs).Sorted fun a b => a.datetime ≤ b.datetime := by
  haveI : IsTotal Lesson (fun a b => a.datetime ≤ b.datetime) := ⟨fun a b => le_total _ _⟩
  haveI : IsTrans Lesson (fun a b => a.datetime ≤ b.datetime) :=
    ⟨fun _ _ _ hab hbc => le_trans hab hbc⟩
  exact List.sorted_insertionSort (fun a b : Lesson => a.datetime ≤ b.datetime) xs

theorem perm_sortByDatetime (xs : List Lesson) : (sortByDatetime xs).Perm xs :=
  List.perm_insertionSort (fun a b : Lesson => a.datetime ≤ b.datetime) xs

/-- C8: the upcoming list of the dashboard (limit 3) and that of the lessons
page (limit 5) are each the first 3, respectively 5, elements of a list in
ascending datetime order that holds exactly the user's lessons (as tutor for
role Tutor, as student otherwise) with status accepted and datetime strictly
after now; on the seed database the seeded student's dashboard list, read
before the first lesson starts, is that lesson alone. -/
theorem upcoming_spec (db : DB) (u : User) (now : Int) :
    (∃ L : List Lesson, L.Sorted (fun a b => a.datetime ≤ b.datetime) ∧
      L.Perm (db.lessons.filter fun l =>
        (if u.role = "Tutor" then l.tutorId = u.id else l.studentId = u.id) ∧
          l.status = "accepted" ∧ now < l.datetime) ∧
      dashboardUpcoming db u now = L.take 3) ∧
    (∃ L : List Lesson, L.Sorted (fun a b => a.datetime ≤ b.datetime) ∧
      L.Perm (db.lessons.filter fun l =>
        (if u.role = "Tutor" then l.tutorId = u.id else l.studentId = u.id) ∧
          l.status = "accepted" ∧ now < l.datetime) ∧
      lessonsUpcoming db u now = L.take 5) ∧
    ∀ (P : Platform) (e : SeedEnv), now < addHours P e.now 30 →
      dashboardUpcoming (seed P e) (seedStudent P e) now = [seedL1 P e] := by
  refine ⟨⟨_, sorted_sortByDatetime _, ?_, rfl⟩, ⟨_, ?_, ?_, rfl⟩, ?_⟩
  · rw [← userLessons_filter db u fun l => l.status = "accepted" ∧ now < l.datetime]
    exact perm_sortByDatetime _
  · exact List.Pairwise.filter _ (sorted_sortByDatetime _)
  · rw [← userLessons_filter db u fun l => l.status = "accepted" ∧ now < l.datetime]
    exact (perm_sortByDatetime _).filter _
  · intro P e hnow
    simp [dashboardUpcoming, userLessons, seed, seedStudent, seedL1, seedL2, sortByDatetime,
      hnow]

/-- Instance of `upcoming_spec`, third part: the seeded student's dashboard at
the instant of seeding. -/
theorem upcoming_spec_witness :
    (1000 : Int) < addHours demoPlatform demoEnv.now 30 ∧
    dashboardUpcoming (seed demoPlatform demoEnv) (seedStudent demoPlatform demoEnv) 1000 =
      [seedL1 demoPlatform demoEnv] :=
  ⟨by decide,
    (upcoming_spec demoDb (seedStudent demoPlatform demoEnv) 1000).2.2 demoPlatform demoEnv
      (by decide)⟩

/-- C9: the weekly schedule of the lessons page is in ascending datetime order
and holds exactly the user's lessons, of any status, whose datetime d satisfies
now ≤ d ≤ end, both bounds included, where end is what `setDate(getDate() + 7)`
gives: the same local time seven calendar days after now, which is
now + 7 · 24 h when the zone offset is the same at both ends.  On the seed
database, read between seeding and the start of the first lesson in a zone
whose offset varies by at most 12 hours, the seeded student's schedule holds
both seeded lessons and nothing else. -/
theorem weekly_spec (P : Platform) (db : DB) (u : User) (now : Int) :
    (lessonsWeek P db u now).Sorted (fun a b => a.datetime ≤ b.datetime) ∧
    (lessonsWeek P db u now).Perm (db.lessons.filter fun l =>
      (if u.role = "Tutor" then l.tutorId = u.id else l.studentId = u.id) ∧
        now ≤ l.datetime ∧ l.datetime ≤ addDays P now 7) ∧
    (P.offsetOfLocal (now + P.offsetAt now + 7 * 86400000) = P.offsetAt now →
      addDays P now 7 = now + 7 * 86400000) ∧
    ∀ e : SeedEnv,
      (∀ a b : Int, P.offsetOfLocal a - P.offsetAt b ≤ 43200000 ∧
        P.offsetAt b - P.offsetOfLocal a ≤ 43200000) →
      e.now ≤ now → now ≤ (seedL1 P e).datetime →
      (lessonsWeek P (seed P e) (seedStudent P e) now).Perm [seedL1 P e, seedL2 P e] := by
  have hperm : ∀ (d : DB) (v : User), (lessonsWeek P d v now).Perm (d.lessons.filter fun l =>
      (if v.role = "Tutor" then l.tutorId = v.id else l.studentId = v.id) ∧
        now ≤ l.datetime ∧ l.datetime ≤ addDays P now 7) := by
    intro d v
    rw [← userLessons_filter d v fun l => now ≤ l.datetime ∧ l.datetime ≤ addDays P now 7]
    exact (perm_sortByDatetime _).filter _
  refine ⟨List.Pairwise.filter _ (sorted_sortByDatetime _), hperm db u, ?_, ?_⟩
  · intro h
    simp only [addDays, shiftLocal, h]
    omega
  · intro e hvar h0 h1
    have hfilter : ((seed P e).lessons.filter fun l =>
        (if (seedStudent P e).role = "Tutor" then l.tutorId = (seedStudent P e).id
          else l.studentId = (seedStudent P e).id) ∧
          now ≤ l.datetime ∧ l.datetime ≤ addDays P now 7) = [seedL1 P e, seedL2 P e] := by
      have hl1 : (seedL1 P e).datetime = addHours P e.now 30 := rfl
      have hl2 : (seedL2 P e).datetime = addHours P e.now 54 := rfl
      have v1 := hvar (e.now + P.offsetAt e.now + 30 * 3600000) e.now
      have v2 := hvar (e.now + P.offsetAt e.now + 54 * 3600000) e.now
      have v3 := hvar (now + P.offsetAt now + 7 * 86400000) now
      rw [hl1] at h1
      have a1 : now ≤ addHours P e.now 30 := h1
      have a2 : addHours P e.now 30 ≤ addDays P now 7 := by
        simp only [addHours, addDays, shiftLocal] at h1 ⊢
        omega
      have a3 : now ≤ addHours P e.now 54 := by
        simp only [addHours, addDays, shiftLocal] at h1 ⊢
        omega
      have a4 : addHours P e.now 54 ≤ addDays P now 7 := by
        simp only [addHours, addDays, shiftLocal] at h1 ⊢
        omega
      simp [seed, seedStudent, hl1, hl2, seedL1, seedL2, a1, a2, a3, a4]
    have hp := hperm (seed P e) (seedStudent P e)
    rw [hfilter] at hp
    exact hp

/-- Instance of `weekly_spec`.  In the zone of `springPlatform` the week that
starts at instant 0 ends after 167 hours: of two lessons 166 h and 167.5 h out
only the first is listed.  The seeded student's schedule there holds both seeded
lessons; in the zone of `demoPlatform`, without clock change, the week has
7 · 24 hours. -/
theorem weekly_spec_witness :
    addDays springPlatform 0 7 = 601200000 ∧
    (lessonsWeek springPlatform springDb (seedStudent demoPlatform demoEnv) 0).map
      (fun l => l.id) = ["y"] ∧
    (lessonsWeek springPlatform (seed springPlatform demoEnv)
      (seedStudent springPlatform demoEnv) 72001000).Perm
      [seedL1 springPlatform demoEnv, seedL2 springPlatform demoEnv] ∧
    addDays demoPlatform 1000 7 = 1000 + 7 * 86400000 :=
  ⟨by decide, by decide,
    (weekly_spec springPlatform (seed springPlatform demoEnv)
      (seedStudent springPlatform demoEnv) 72001000).2.2.2 demoEnv
      (fun a b => by
        simp only [springPlatform]
        split <;> split <;> constructor <;> decide)
      (by decide) (by decide),
    (weekly_spec demoPlatform demoDb (seedStudent demoPlatform demoEnv) 1000).2.2.1 rfl⟩


/-! ## Statistics -/

theorem foldl_add_quizPercent (qr : List QuizResult) (a : Rat) :
    qr.foldl (fun s q => s + quizPercent q) a = a + (qr.map quizPercent).sum := by
  induction qr generalizing a with
  | nil => simp
  | cons q qs ih => simp [List.foldl_cons, ih, add_assoc]

/-- C10: `stats(studentId).avg` is 0 when the student has no quiz results (no
progress record, or one with an empty list), and otherwise, all totals being
non-zero, it is the sum over the student's quiz results of score / total * 100
divided by their number, in exact rational arithmetic. -/
theorem stats_avg (db : DB) (studentId : String) (now : Int) :
    ((progressOf db studentId).quizResults = [] → (stats db studentId now).avg = 0) ∧
    ((progressOf db studentId).quizResults ≠ [] →
      (∀ q ∈ (progressOf db studentId).quizResults, q.total ≠ 0) →
      (stats db studentId now).avg =
        ((progressOf db studentId).quizResults.map fun q =>
            (q.score : Rat) / (q.total : Rat) * 100).sum /
          ((progressOf db studentId).quizResults.length : Rat)) := by
  constructor
  · intro h
    simp [stats, h]
  · intro h _
    have hlen : (progressOf db studentId).quizResults.length ≠ 0 := by
      simpa [List.length_eq_zero] using h
    simp only [stats, hlen, ne_eq, not_false_eq_true, if_true, foldl_add_quizPercent, zero_add]
    rfl

/-- Instance of `stats_avg`: the seeded student, whose single quiz result is 2
out of 3, and a user without progress record. -/
theorem stats_avg_witness :
    (stats demoDb "u_s" 1000).avg = 200 / 3 ∧ (stats demoDb "u_t" 1000).avg = 0 := by
  constructor
  · rw [(stats_avg demoDb "u_s" 1000).2 (by decide) (by decide)]
    simp [progressOf, demoDb, seed, demoEnv]
    norm_num
  · exact (stats_avg demoDb "u_t" 1000).1 (by decide)

/-! ## Quiz trend bars -/

theorem mathRound_nearest (x : Rat) :
    ((mathRound x : Int) : Rat) - 1 / 2 ≤ x ∧ x < ((mathRound x : Int) : Rat) + 1 / 2 := by
  unfold mathRound
  have h1 := Int.floor_le (x + 1 / 2)
  have h2 := Int.lt_floor_add_one (x + 1 / 2)
  constructor <;> linarith

theorem roundHalfEven_error (y : Rat) : |(roundHalfEven y : Rat) - y| ≤ 1 / 2 := by
  have h1 := Int.floor_le y
  have h2 := Int.lt_floor_add_one y
  rw [abs_le]
  unfold roundHalfEven
  split
  · constructor <;> linarith
  · split
    · push_cast
      constructor <;> linarith
    · split
      · constructor <;> linarith
      · push_cast
        constructor <;> linarith

theorem toDouble_error (q : Rat) : |toDouble q - q| * 9007199254740992 ≤ |q| := by
  unfold toDouble
  split
  · rename_i h0
    simp [h0]
  · rename_i h0
    have hq : 0 < |q| := abs_pos.mpr h0
    have hpos : (0 : Rat) < (2 : Rat) ^ (Int.log 2 |q| - 52) := by positivity
    have hlog : (2 : Rat) ^ Int.log 2 |q| ≤ |q| := by
      have := Int.zpow_log_le_self (b := 2) (r := |q|) (by norm_num) hq
      simpa using this
    have hsplit : (2 : Rat) ^ Int.log 2 |q| =
        (2 : Rat) ^ (Int.log 2 |q| - 52) * 4503599627370496 := by
      rw [zpow_sub₀ (by norm_num : (2 : Rat) ≠ 0)]
      norm_num
    have herr := roundHalfEven_error (q / (2 : Rat) ^ (Int.log 2 |q| - 52))
    have hfac : (roundHalfEven (q / (2 : Rat) ^ (Int.log 2 |q| - 52)) : Rat) *
        (2 : Rat) ^ (Int.log 2 |q| - 52) - q =
        ((roundHalfEven (q / (2 : Rat) ^ (Int.log 2 |q| - 52)) : Rat) -
          q / (2 : Rat) ^ (Int.log 2 |q| - 52)) * (2 : Rat) ^ (Int.log 2 |q| - 52) := by
      field_simp
    rw [hfac, abs_mul, abs_of_pos hpos]
    have hstep : |(roundHalfEven (q / (2 : Rat) ^ (Int.log 2 |q| - 52)) : Rat) -
        q / (2 : Rat) ^ (Int.log 2 |q| - 52)| * (2 : Rat) ^ (Int.log 2 |q| - 52) ≤
        1 / 2 * (2 : Rat) ^ (Int.log 2 |q| - 52) :=
      mul_le_mul_of_nonneg_right herr hpos.le
    nlinarith

theorem quizPercentDouble_error (q : QuizResult) :
    |quizPercentDouble q - (q.score : Rat) / (q.total : Rat) * 100| * 9007199254740992 ≤
      300 * |(q.score : Rat) / (q.total : Rat)| := by
  unfold quizPercentDouble
  have e1 := toDouble_error ((q.score : Rat) / (q.total : Rat))
  have e2 := toDouble_error (toDouble ((q.score : Rat) / (q.total : Rat)) * 100)
  have habs : |toDouble ((q.score : Rat) / (q.total : Rat)) * 100| =
      100 * |toDouble ((q.score : Rat) / (q.total : Rat))| := by
    rw [abs_mul]
    norm_num
    ring
  rw [habs] at e2
  have htri : |toDouble ((q.score : Rat) / (q.total : Rat))| ≤
      |toDouble ((q.score : Rat) / (q.total : Rat)) - (q.score : Rat) / (q.total : Rat)| +
        |(q.score : Rat) / (q.total : Rat)| := by
    have := abs_add (toDouble ((q.score : Rat) / (q.total : Rat)) -
      (q.score : Rat) / (q.total : Rat)) ((q.score : Rat) / (q.total : Rat))
    simpa using this
  have htri2 : |toDouble (toDouble ((q.score : Rat) / (q.total : Rat)) * 100) -
      (q.score : Rat) / (q.total : Rat) * 100| ≤
      |toDouble (toDouble ((q.score : Rat) / (q.total : Rat)) * 100) -
        toDouble ((q.score : Rat) / (q.total : Rat)) * 100| +
      100 * |toDouble ((q.score : Rat) / (q.total : Rat)) -
        (q.score : Rat) / (q.total : Rat)| := by
    have h100 : (100 : Rat) * |toDouble ((q.score : Rat) / (q.total : Rat)) -
        (q.score : Rat) / (q.total : Rat)| =
        |toDouble ((q.score : Rat) / (q.total : Rat)) * 100 -
          (q.score : Rat) / (q.total : Rat) * 100| := by
      rw [← sub_mul, abs_mul]
      norm_num
      ring
    rw [h100]
    have := abs_add (toDouble (toDouble ((q.score : Rat) / (q.total : Rat)) * 100) -
      toDouble ((q.score : Rat) / (q.total : Rat)) * 100)
      (toDouble ((q.score : Rat) / (q.total : Rat)) * 100 -
        (q.score : Rat) / (q.total : Rat) * 100)
    simpa using this
  have hy := abs_nonneg ((q.score : Rat) / (q.total : Rat))
  have hd := abs_nonneg (toDouble ((q.score : Rat) / (q.total : Rat)) -
    (q.score : Rat) / (q.total : Rat))
  nlinarith

theorem half_gap (s t b : Int) (ht : t ≠ 0)
    (hne : (s : Rat) / (t : Rat) * 100 ≠ (b : Rat) + 1 / 2) :
    1 ≤ |(s : Rat) / (t : Rat) * 100 - ((b : Rat) + 1 / 2)| * (2 * |(t : Rat)|) := by
  have htq : (t : Rat) ≠ 0 := by exact_mod_cast ht
  have hform : (s : Rat) / (t : Rat) * 100 - ((b : Rat) + 1 / 2) =
      ((200 * s - (2 * b + 1) * t : Int) : Rat) / (2 * (t : Rat)) := by
    push_cast
    field_simp
    ring
  have hN : (200 * s - (2 * b + 1) * t : Int) ≠ 0 := by
    intro h0
    apply hne
    have : (s : Rat) / (t : Rat) * 100 - ((b : Rat) + 1 / 2) = 0 := by
      rw [hform, h0]
      simp
    linarith
  have hN1 : (1 : Rat) ≤ |((200 * s - (2 * b + 1) * t : Int) : Rat)| := by
    have := Int.one_le_abs hN
    exact_mod_cast this
  have htpos : (0 : Rat) < |(t : Rat)| := abs_pos.mpr htq
  rw [hform, abs_div, abs_mul, abs_two]
  rw [div_mul_cancel₀ _ (by positivity)]
  exact hN1

theorem bar_near_exact (q : QuizResult) (ht : q.total ≠ 0)
    (hs : 600 * |q.score| < 9007199254740992) :
    ((mathRound (quizPercentDouble q) : Int) : Rat) - 1 / 2 ≤
        (q.score : Rat) / (q.total : Rat) * 100 ∧
      (q.score : Rat) / (q.total : Rat) * 100 ≤
        ((mathRound (quizPercentDouble q) : Int) : Rat) + 1 / 2 := by
  obtain ⟨hlo, hhi⟩ := mathRound_nearest (quizPercentDouble q)
  have herr := quizPercentDouble_error q
  have htq : (q.total : Rat) ≠ 0 := by exact_mod_cast ht
  have hT : (0 : Rat) < |(q.total : Rat)| := abs_pos.mpr htq
  have hS : (600 : Rat) * |(q.score : Rat)| < 9007199254740992 := by
    have : ((600 * |q.score| : Int) : Rat) < ((9007199254740992 : Int) : Rat) := by
      exact_mod_cast hs
    simpa [Int.cast_abs] using this
  have hA := abs_nonneg (quizPercentDouble q - (q.score : Rat) / (q.total : Rat) * 100)
  have herrT : |quizPercentDouble q - (q.score : Rat) / (q.total : Rat) * 100| *
      9007199254740992 * |(q.total : Rat)| ≤ 300 * |(q.score : Rat)| := by
    have hdiv : |(q.score : Rat) / (q.total : Rat)| * |(q.total : Rat)| = |(q.score : Rat)| := by
      rw [abs_div, div_mul_cancel₀ _ hT.ne']
    nlinarith
  constructor
  · by_contra hcon
    rw [not_le] at hcon
    have hne : (q.score : Rat) / (q.total : Rat) * 100 ≠
        (((mathRound (quizPercentDouble q) - 1 : Int) : Int) : Rat) + 1 / 2 := by
      push_cast
      intro h
      linarith
    have hgap := half_gap q.score q.total (mathRound (quizPercentDouble q) - 1) ht hne
    have hneg : (q.score : Rat) / (q.total : Rat) * 100 -
        ((((mathRound (quizPercentDouble q) - 1 : Int) : Int) : Rat) + 1 / 2) < 0 := by
      push_cast
      linarith
    rw [abs_of_neg hneg] at hgap
    push_cast at hgap
    have hAge : ((mathRound (quizPercentDouble q) : Int) : Rat) - 1 / 2 -
        (q.score : Rat) / (q.total : Rat) * 100 ≤
        |quizPercentDouble q - (q.score : Rat) / (q.total : Rat) * 100| := by
      have := le_abs_self (quizPercentDouble q - (q.score : Rat) / (q.total : Rat) * 100)
      linarith
    have h1 : 1 ≤ |quizPercentDouble q - (q.score : Rat) / (q.total : Rat) * 100| *
        (2 * |(q.total : Rat)|) := by
      have := mul_le_mul_of_nonneg_right hAge (by positivity : (0 : Rat) ≤ 2 * |(q.total : Rat)|)
      linarith
    nlinarith
  · by_contra hcon
    rw [not_le] at hcon
    have hne : (q.score : Rat) / (q.total : Rat) * 100 ≠
        ((mathRound (quizPercentDouble q) : Int) : Rat) + 1 / 2 := ne_of_gt hcon
    have hgap := half_gap q.score q.total (mathRound (quizPercentDouble q)) ht hne
    have hpos : 0 < (q.score : Rat) / (q.total : Rat) * 100 -
        (((mathRound (quizPercentDouble q) : Int) : Rat) + 1 / 2) := by linarith
    rw [abs_of_pos hpos] at hgap
    have hAge : (q.score : Rat) / (q.total : Rat) * 100 -
        (((mathRound (quizPercentDouble q) : Int) : Rat) + 1 / 2) <
        |quizPercentDouble q - (q.score : Rat) / (q.total : Rat) * 100| := by
      have := neg_le_abs (quizPercentDouble q - (q.score : Rat) / (q.total : Rat) * 100)
      linarith
    have h1 : 1 < |quizPercentDouble q - (q.score : Rat) / (q.total : Rat) * 100| *
        (2 * |(q.total : Rat)|) := by
      have := mul_lt_mul_of_pos_right hAge (by positivity : (0 : Rat) < 2 * |(q.total : Rat)|)
      linarith
    nlinarith

theorem bar_bounds (q : QuizResult) (h0 : 0 ≤ q.score) (h1 : q.score ≤ q.total)
    (ht : 0 < q.total) :
    0 ≤ mathRound (quizPercentDouble q) ∧ mathRound (quizPercentDouble q) ≤ 100 := by
  have hs : (0 : Rat) ≤ (q.score : Rat) := by exact_mod_cast h0
  have hst : (q.score : Rat) ≤ (q.total : Rat) := by exact_mod_cast h1
  have htq : (0 : Rat) < (q.total : Rat) := by exact_mod_cast ht
  have hd0 : (0 : Rat) ≤ (q.score : Rat) / (q.total : Rat) := div_nonneg hs htq.le
  have hd1 : (q.score : Rat) / (q.total : Rat) ≤ 1 := (div_le_one htq).mpr hst
  have herr := quizPercentDouble_error q
  rw [abs_of_nonneg hd0] at herr
  have hab := abs_le.mp (le_refl |quizPercentDouble q - (q.score : Rat) / (q.total : Rat) * 100|)
  unfold mathRound
  constructor
  · rw [Int.floor_nonneg]
    linarith [hab.1]
  · have : Int.floor (quizPercentDouble q + 1 / 2) < 101 := by
      rw [Int.floor_lt]
      push_cast
      linarith [hab.2]
    omega

/-- C11: `stats(studentId).bars` has length min(n, 8) for n stored quiz results;
its i-th entry belongs to the i-th of the last min(n, 8) results, in stored
order, and is `Math.round` of the double that `(score / total) * 100` evaluates
to, hence an integer nearest to the exact score / total * 100 (within one half)
when total is not 0 and 600 · |score| is below 2 ^ 53; when every result has
0 ≤ score ≤ total and 0 < total, every bar lies between 0 and 100. -/
theorem stats_bars (db : DB) (studentId : String) (now : Int) :
    (stats db studentId now).bars.length =
      min (progressOf db studentId).quizResults.length 8 ∧
    (∀ i : Nat, i < min (progressOf db studentId).quizResults.length 8 →
      ∃ (q : QuizResult) (b : Int),
        (progressOf db studentId).quizResults[(progressOf db studentId).quizResults.length -
          min (progressOf db studentId).quizResults.length 8 + i]? = some q ∧
        (stats db studentId now).bars[i]? = some b ∧
        ((b : Rat) - 1 / 2 ≤ quizPercentDouble q ∧ quizPercentDouble q < (b : Rat) + 1 / 2) ∧
        (q.total ≠ 0 → 600 * |q.score| < 9007199254740992 →
          (b : Rat) - 1 / 2 ≤ (q.score : Rat) / (q.total : Rat) * 100 ∧
          (q.score : Rat) / (q.total : Rat) * 100 ≤ (b : Rat) + 1 / 2)) ∧
    ((∀ q ∈ (progressOf db studentId).quizResults,
        0 ≤ q.score ∧ q.score ≤ q.total ∧ 0 < q.total) →
      ∀ b ∈ (stats db studentId now).bars, 0 ≤ b ∧ b ≤ 100) := by
  have hbars : (stats db studentId now).bars =
      ((progressOf db studentId).quizResults.drop
        ((progressOf db studentId).quizResults.length - 8)).map
        fun q => mathRound (quizPercentDouble q) := rfl
  refine ⟨?_, ?_, ?_⟩
  · rw [hbars, List.length_map, List.length_drop]
    omega
  · intro i hi
    have hidx : (progressOf db studentId).quizResults.length -
        min (progressOf db studentId).quizResults.length 8 + i <
        (progressOf db studentId).quizResults.length := by omega
    refine ⟨(progressOf db studentId).quizResults[(progressOf db studentId).quizResults.length -
        min (progressOf db studentId).quizResults.length 8 + i],
      mathRound (quizPercentDouble ((progressOf db studentId).quizResults[
        (progressOf db studentId).quizResults.length -
          min (progressOf db studentId).quizResults.length 8 + i])),
      List.getElem?_eq_getElem hidx, ?_, mathRound_nearest _,
      fun ht hs => bar_near_exact _ ht hs⟩
    rw [hbars, List.getElem?_map, List.getElem?_drop]
    have hsame : (progressOf db studentId).quizResults.length - 8 + i =
        (progressOf db studentId).quizResults.length -
          min (progressOf db studentId).quizResults.length 8 + i := by omega
    rw [hsame, List.getElem?_eq_getElem hidx]
    rfl
  · intro hall b hb
    rw [hbars, List.mem_map] at hb
    obtain ⟨q, hq, rfl⟩ := hb
    obtain ⟨h0, h1, ht⟩ := hall q (List.mem_of_mem_drop hq)
    exact bar_bounds q h0 h1 ht

/-- Instance of `stats_bars`: a student with the results 23 out of 40 and 2 out
of 3.  The double of 23 / 40 · 100 lies just below 57.5, so the first bar is 57;
the second is 67. -/
theorem stats_bars_witness :
    (stats demoQuizDb "u_s" 1000).bars = [57, 67] ∧
    (∀ b ∈ (stats demoQuizDb "u_s" 1000).bars, 0 ≤ b ∧ b ≤ 100) ∧
    ∃ (q : QuizResult) (b : Int),
      (progressOf demoQuizDb "u_s").quizResults[(progressOf demoQuizDb "u_s").quizResults.length -
        min (progressOf demoQuizDb "u_s").quizResults.length 8 + 0]? = some q ∧
      (stats demoQuizDb "u_s" 1000).bars[0]? = some b ∧
      ((b : Rat) - 1 / 2 ≤ quizPercentDouble q ∧ quizPercentDouble q < (b : Rat) + 1 / 2) ∧
      (q.total ≠ 0 → 600 * |q.score| < 9007199254740992 →
        (b : Rat) - 1 / 2 ≤ (q.score : Rat) / (q.total : Rat) * 100 ∧
        (q.score : Rat) / (q.total : Rat) * 100 ≤ (b : Rat) + 1 / 2) :=
  ⟨by decide!, (stats_bars demoQuizDb "u_s" 1000).2.2 (by decide),
    (stats_bars demoQuizDb "u_s" 1000).2.1 0 (by decide)⟩

/-! ## Whiteboard strokes and snapshots -/

/-- C12: on any whiteboard, the pointer-release handler run with a stroke in
progress appends that stroke, and the Undo handler run next gives back the
stroke sequence, and the whole whiteboard, of before the commit. -/
theorem commit_then_undo (w : Whiteboard) (st : Stroke) :
    (pointerUp w ⟨true, some st⟩).1.strokes = w.strokes ++ [st] ∧
    (wbUndo (pointerUp w ⟨true, some st⟩).1).strokes = w.strokes ∧
    wbUndo (pointerUp w ⟨true, some st⟩).1 = w := by
  simp [pointerUp, wbUndo]

theorem wbSave_snapshots_of_le (w : Whiteboard) (img : String)
    (h : w.snapshots.length ≤ 20) :
    (wbSave w img).snapshots =
      (w.snapshots ++ [img]).drop ((w.snapshots ++ [img]).length - 20) := by
  simp only [wbSave]
  split
  · rename_i hlt
    have hk : (w.snapshots ++ [img]).length - 20 = 1 := by
      simp only [List.length_append, List.length_singleton] at hlt ⊢
      omega
    rw [hk, List.drop_one]
  · rename_i hlt
    have hk : (w.snapshots ++ [img]).length - 20 = 0 := by
      simp only [List.length_append, List.length_singleton] at hlt ⊢
      omega
    rw [hk, List.drop_zero]

theorem wbSave_length_le (w : Whiteboard) (img : String) (h : w.snapshots.length ≤ 20) :
    (wbSave w img).snapshots.length ≤ 20 := by
  rw [wbSave_snapshots_of_le w img h, List.length_drop]
  simp only [List.length_append, List.length_singleton]
  omega

theorem wbSaveAll_snapshots (imgs : List String) :
    ∀ w : Whiteboard, w.snapshots.length ≤ 20 →
      (wbSaveAll w imgs).snapshots =
        (w.snapshots ++ imgs).drop ((w.snapshots ++ imgs).length - 20) := by
  induction imgs with
  | nil =>
    intro w h
    have hk : (w.snapshots ++ []).length - 20 = 0 := by
      simp only [List.append_nil]
      omega
    rw [hk]
    simp [wbSaveAll]
  | cons x xs ih =>
    intro w h
    have hstep : wbSaveAll w (x :: xs) = wbSaveAll (wbSave w x) xs := rfl
    rw [hstep, ih (wbSave w x) (wbSave_length_le w x h), wbSave_snapshots_of_le w x h]
    have hle : (w.snapshots ++ [x]).length - 20 ≤ (w.snapshots ++ [x]).length :=
      Nat.sub_le _ _
    rw [← List.drop_append_of_le_length hle, List.drop_drop, List.append_assoc,
      List.singleton_append]
    congr 1
    simp only [List.length_drop, List.length_append, List.length_cons, List.length_singleton,
      List.length_nil]
    omega

/-- C13: starting from a whiteboard with no snapshots, after any run of Save
Snapshot clicks the snapshot sequence has at most 20 elements; after exactly 21
clicks the entry saved first has been evicted: the sequence is the 2nd to 21st
images in order, entry i being the image of save i + 1, and its last element is
the 21st image (so the first image does not occur in it unless a later save
stored an equal image). -/
theorem snapshots_bounded (w : Whiteboard) (imgs : List String) (hw : w.snapshots = []) :
    (wbSaveAll w imgs).snapshots.length ≤ 20 ∧
    (imgs.length = 21 →
      (wbSaveAll w imgs).snapshots = imgs.drop 1 ∧
      (∀ i : Nat, i < 20 → (wbSaveAll w imgs).snapshots[i]? = imgs[i + 1]?) ∧
      (wbSaveAll w imgs).snapshots.getLast? = imgs[20]? ∧
      ∀ first : String, imgs[0]? = some first → first ∉ imgs.drop 1 →
        first ∉ (wbSaveAll w imgs).snapshots) := by
  have hall := wbSaveAll_snapshots imgs w (by rw [hw]; exact Nat.zero_le _)
  rw [hw, List.nil_append] at hall
  constructor
  · rw [hall, List.length_drop]
    omega
  · intro hlen
    have hrest : (wbSaveAll w imgs).snapshots = imgs.drop 1 := by
      rw [hall, hlen]
    refine ⟨hrest, fun i _ => ?_, ?_, fun first _ h => by rw [hrest]; exact h⟩
    · rw [hrest, List.getElem?_drop, Nat.add_comm]
    · rw [hrest, List.getLast?_eq_getElem?, List.length_drop, hlen, List.getElem?_drop]

/-- Instance of `snapshots_bounded`: 21 different images saved on an empty
whiteboard. -/
theorem snapshots_bounded_witness :
    (wbSaveAll ⟨[], []⟩ ((List.range 21).map fun n => toString n)).snapshots.length ≤ 20 ∧
    (wbSaveAll ⟨[], []⟩ ((List.range 21).map fun n => toString n)).snapshots =
      (List.range' 1 20).map (fun n => toString n) ∧
    (wbSaveAll ⟨[], []⟩ ((List.range 21).map fun n => toString n)).snapshots.getLast? =
      some "20" ∧
    "0" ∉ (wbSaveAll ⟨[], []⟩ ((List.range 21).map fun n => toString n)).snapshots := by
  have h := snapshots_bounded ⟨[], []⟩ ((List.range 21).map fun n => toString n) rfl
  obtain ⟨h1, _, h3, h4⟩ := h.2 (by decide)
  exact ⟨h.1, h1.trans (by decide), h3.trans (by decide), h4 "0" (by decide) (by decide)⟩

/-- C14, as stated, fails: on a stored sequence of 22 snapshots a save leaves 22
snapshots (the old ones without the first, then the image), which is neither the
last 20 old ones followed by the image nor the last 20 of the old ones followed
by the image. -/
theorem wbSave_long_sequence_keeps_length :
    (wbSave ⟨[], (List.range 22).map fun n => toString n⟩ "new").snapshots =
      ((List.range 22).map fun n => toString n).tail ++ ["new"] ∧
    (wbSave ⟨[], (List.range 22).map fun n => toString n⟩ "new").snapshots.length = 22 ∧
    (wbSave ⟨[], (List.range 22).map fun n => toString n⟩ "new").snapshots ≠
      ((List.range 22).map fun n => toString n).drop (22 - 20) ++ ["new"] ∧
    (wbSave ⟨[], (List.range 22).map fun n => toString n⟩ "new").snapshots ≠
      (((List.range 22).map fun n => toString n) ++ ["new"]).drop (23 - 20) := by
  decide

/-- C14, amended: a save on a stored sequence of at most 20 snapshots leaves the
last 20 elements of that sequence followed by the image (all of them when these
are at most 20); on a longer stored sequence it removes the first snapshot only
and appends the image, so the length stays above 20. -/
theorem wbSave_spec (w : Whiteboard) (img : String) :
    (w.snapshots.length ≤ 20 →
      (wbSave w img).snapshots =
        (w.snapshots ++ [img]).drop ((w.snapshots ++ [img]).length - 20) ∧
      (wbSave w img).snapshots.length ≤ 20) ∧
    (w.snapshots.length < 20 → (wbSave w img).snapshots = w.snapshots ++ [img]) ∧
    (20 ≤ w.snapshots.length →
      (wbSave w img).snapshots = w.snapshots.tail ++ [img] ∧
      (wbSave w img).snapshots.length = w.snapshots.length) ∧
    (wbSave w img).strokes = w.strokes := by
  refine ⟨fun h => ⟨wbSave_snapshots_of_le w img h, wbSave_length_le w img h⟩, ?_, ?_, rfl⟩
  · intro h
    have hn : ¬ 20 < (w.snapshots ++ [img]).length := by
      simp only [List.length_append, List.length_singleton]
      omega
    simp only [wbSave, hn, if_false]
  · intro h
    have hn : 20 < (w.snapshots ++ [img]).length := by
      simp only [List.length_append, List.length_singleton]
      omega
    have hne : w.snapshots ≠ [] := by
      intro h0
      rw [h0] at h
      simp at h
    have htail : (w.snapshots ++ [img]).tail = w.snapshots.tail ++ [img] := by
      cases hs : w.snapshots with
      | nil => exact absurd hs hne
      | cons a as => rfl
    simp only [wbSave, hn, if_true, htail]
    refine ⟨trivial, ?_⟩
    simp only [List.length_append, List.length_tail, List.length_singleton]
    omega

/-- Instance of `wbSave_spec`: a save on exactly 20 stored snapshots. -/
theorem wbSave_spec_witness :
    (wbSave ⟨[], (List.range 20).map fun n => toString n⟩ "new").snapshots =
      ((List.range' 1 19).map fun n => toString n) ++ ["new"] ∧
    (wbSave ⟨[], (List.range 20).map fun n => toString n⟩ "new").snapshots.length ≤ 20 ∧
    (wbSave ⟨[], (List.range 20).map fun n => toString n⟩ "new").snapshots.length = 20 := by
  have h := wbSave_spec ⟨[], (List.range 20).map fun n => toString n⟩ "new"
  obtain ⟨h1, h2⟩ := h.1 (by decide)
  obtain ⟨_, h4⟩ := h.2.2.1 (by decide)
  exact ⟨h1.trans (by decide), h2, h4.trans (by decide)⟩

/-! ## Writing submissions, rubric scores, shaping -/

/-- C15: when the text is empty after trimming, the writing handler fails and
the writingSubmissions sequence is the same as before; otherwise the handler
succeeds and the sequence is the old one followed by one submission whose text
is the trimmed text, whose feedback is the empty string and whose rubric has
clarity, grammar and vocabulary unset. -/
theorem submitWriting_spec (P : Platform) (p : Progress) (rawPrompt rawText newId : String)
    (now : Int) :
    (P.trim rawText = "" →
      (submitWriting P p rawPrompt rawText newId now).error ≠ none ∧
      (submitWriting P p rawPrompt rawText newId now).state.writingSubmissions =
        p.writingSubmissions ∧
      (submitWriting P p rawPrompt rawText newId now).state = p) ∧
    (P.trim rawText ≠ "" →
      (submitWriting P p rawPrompt rawText newId now).error = none ∧
      ∃ w : WritingSubmission,
        (submitWriting P p rawPrompt rawText newId now).state.writingSubmissions =
          p.writingSubmissions ++ [w] ∧
        w.text = P.trim rawText ∧ w.feedback = "" ∧
        w.rubric.clarity = none ∧ w.rubric.grammar = none ∧ w.rubric.vocabulary = none) := by
  constructor
  · intro h
    simp [submitWriting, h]
  · intro h
    have hval : submitWriting P p rawPrompt rawText newId now =
        ⟨none, { p with writingSubmissions := p.writingSubmissions ++
          [{ id := newId, prompt := P.trim rawPrompt, text := P.trim rawText, date := now,
             feedback := "",
             rubric := { clarity := none, grammar := none, vocabulary := none } }] }⟩ := by
      simp only [submitWriting, h, if_false]
    rw [hval]
    exact ⟨rfl, _, rfl, rfl, rfl, rfl, rfl, rfl⟩

/-- Instance of `submitWriting_spec`: a blank response and a real one on the
seeded student's record. -/
theorem submitWriting_spec_witness :
    ((submitWriting demoPlatform (progressOf demoDb "u_s") "Prompt" "  " "w_2" 2000).error ≠
        none ∧
      (submitWriting demoPlatform (progressOf demoDb "u_s") "Prompt" "  " "w_2"
        2000).state.writingSubmissions = (progressOf demoDb "u_s").writingSubmissions ∧
      (submitWriting demoPlatform (progressOf demoDb "u_s") "Prompt" "  " "w_2" 2000).state =
        progressOf demoDb "u_s") ∧
    ((submitWriting demoPlatform (progressOf demoDb "u_s") "Prompt" " My trip. " "w_2"
        2000).error = none ∧
      ∃ w : WritingSubmission,
        (submitWriting demoPlatform (progressOf demoDb "u_s") "Prompt" " My trip. " "w_2"
          2000).state.writingSubmissions = (progressOf demoDb "u_s").writingSubmissions ++ [w] ∧
        w.text = demoPlatform.trim " My trip. " ∧ w.feedback = "" ∧
        w.rubric.clarity = none ∧ w.rubric.grammar = none ∧ w.rubric.vocabulary = none) :=
  ⟨(submitWriting_spec demoPlatform (progressOf demoDb "u_s") "Prompt" "  " "w_2" 2000).1
      (by decide),
    (submitWriting_spec demoPlatform (progressOf demoDb "u_s") "Prompt" " My trip. " "w_2"
      2000).2 (by decide)⟩

/-- C16, the code at the failing input: for a rubric field left blank
`Number("")` is 0, not `NaN`, so `score` stores 1 where the claim has it unset;
the stored value is in every case unset or between 1 and 5. -/
theorem score_blank_is_one (P : Platform) :
    number P "" = JsNumber.fin 0 ∧ score P "" = some 1 ∧ score P "" ≠ none ∧
    ∀ v : String, score P v = none ∨ ∃ n : Int, score P v = some n ∧ 1 ≤ n ∧ n ≤ 5 := by
  have hnum : number P "" = JsNumber.fin 0 := by simp [number]
  have hround : mathRound 0 = 0 := by
    unfold mathRound
    norm_num
  refine ⟨hnum, ?_, ?_, ?_⟩
  · simp [score, hnum, hround]
  · simp [score, hnum]
  · intro v
    unfold score
    cases number P v with
    | nan => exact Or.inl rfl
    | negInf => exact Or.inr ⟨1, rfl, by decide, by decide⟩
    | fin q => exact Or.inr ⟨_, rfl, le_max_left _ _, max_le (by decide) (min_le_left _ _)⟩
    | posInf => exact Or.inr ⟨5, rfl, by decide, by decide⟩

/-- C19: after `shape()` each of the eight top-level keys holds a value; a key
that held a value before holds the same value; a key that was missing or null
holds its empty default (empty sequence, empty mapping, false); and a second
`shape()` changes nothing. -/
theorem shape_spec (d : Doc) :
    ((shape d).users.isSome ∧ (shape d).lessons.isSome ∧ (shape d).chats.isSome ∧
      (shape d).lessonNotes.isSome ∧ (shape d).whiteboards.isSome ∧
      (shape d).lessonTools.isSome ∧ (shape d).progress.isSome ∧ (shape d).darkMode.isSome) ∧
    ((∀ v, d.users = some v → (shape d).users = some v) ∧
      (∀ v, d.lessons = some v → (shape d).lessons = some v) ∧
      (∀ v, d.chats = some v → (shape d).chats = some v) ∧
      (∀ v, d.lessonNotes = some v → (shape d).lessonNotes = some v) ∧
      (∀ v, d.whiteboards = some v → (shape d).whiteboards = some v) ∧
      (∀ v, d.lessonTools = some v → (shape d).lessonTools = some v) ∧
      (∀ v, d.progress = some v → (shape d).progress = some v) ∧
      (∀ v, d.darkMode = some v → (shape d).darkMode = some v)) ∧
    ((d.users = none → (shape d).users = some []) ∧
      (d.lessons = none → (shape d).lessons = some []) ∧
      (d.chats = none → (shape d).chats = some []) ∧
      (d.lessonNotes = none → (shape d).lessonNotes = some []) ∧
      (d.whiteboards = none → (shape d).whiteboards = some []) ∧
      (d.lessonTools = none → (shape d).lessonTools = some []) ∧
      (d.progress = none → (shape d).progress = some []) ∧
      (d.darkMode = none → (shape d).darkMode = some false)) ∧
    shape (shape d) = shape d := by
  obtain ⟨u, l, c, n, w, t, p, k⟩ := d
  refine ⟨?_, ?_, ?_, ?_⟩
  · cases u <;> cases l <;> cases c <;> cases n <;> cases w <;> cases t <;> cases p <;>
      cases k <;> simp [shape, fillKey]
  · refine ⟨?_, ?_, ?_, ?_, ?_, ?_, ?_, ?_⟩ <;> intro v hv <;> simp only at hv <;>
      subst hv <;> rfl
  · refine ⟨?_, ?_, ?_, ?_, ?_, ?_, ?_, ?_⟩ <;> intro hv <;> simp only at hv <;>
      subst hv <;> rfl
  · cases u <;> cases l <;> cases c <;> cases n <;> cases w <;> cases t <;> cases p <;>
      cases k <;> rfl

/-- Instance of `shape_spec`: a document saved without whiteboards and lesson
tools, and with dark mode stored as false. -/
theorem shape_spec_witness :
    (shape ⟨some demoDb.users, some demoDb.lessons, some [], some [], none, none,
      some demoDb.progress, some false⟩).users = some demoDb.users ∧
    (shape ⟨some demoDb.users, some demoDb.lessons, some [], some [], none, none,
      some demoDb.progress, some false⟩).whiteboards = some [] ∧
    (shape ⟨some demoDb.users, some demoDb.lessons, some [], some [], none, none,
      some demoDb.progress, some false⟩).darkMode = some false :=
  have h := shape_spec ⟨some demoDb.users, some demoDb.lessons, some [], some [], none, none,
    some demoDb.progress, some false⟩
  ⟨h.2.1.1 _ rfl, h.2.2.1.2.2.2.2.1 rfl, h.2.1.2.2.2.2.2.2.2 _ rfl⟩

/-! ## Store staleness, timers, room access -/

/-- C17, the code at the failing input: the stored document equals the database;
the student opens the room of the accepted lesson `l_3`, which has no lesson
tools and no whiteboard yet.  `ensureTools` adds the tools and saves, then `wb`
adds the whiteboard without a save: the stored document lacks the whiteboard
that the in-memory database has. -/
theorem room_leaves_store_stale :
    (room ⟨demoAcceptedDb, some demoAcceptedDb⟩ (seedStudent demoPlatform demoEnv)
      (some "l_3")).1 ≠ RoomView.unavailable ∧
    (room ⟨demoAcceptedDb, some demoAcceptedDb⟩ (seedStudent demoPlatform demoEnv)
      (some "l_3")).1 ≠ RoomView.noAccess ∧
    (room ⟨demoAcceptedDb, some demoAcceptedDb⟩ (seedStudent demoPlatform demoEnv)
      (some "l_3")).2.db.whiteboards.lookup "l_3" = some ⟨[], []⟩ ∧
    ((room ⟨demoAcceptedDb, some demoAcceptedDb⟩ (seedStudent demoPlatform demoEnv)
      (some "l_3")).2.stored.map fun d => d.whiteboards.lookup "l_3") = some none ∧
    (room ⟨demoAcceptedDb, some demoAcceptedDb⟩ (seedStudent demoPlatform demoEnv)
      (some "l_3")).2.stored ≠
      some (room ⟨demoAcceptedDb, some demoAcceptedDb⟩ (seedStudent demoPlatform demoEnv)
        (some "l_3")).2.db := by
  decide

theorem render_stops_trial_timer (ui : Ui) (u : Option User) (r : Route) (h : Nat)
    (hr : r.name ≠ "trial") :
    (render ui u r h).1.route = r ∧ (render ui u r h).1.trial.timerId = none := by
  have hstop : (stopTrialTimer ui).trial.timerId = none := by
    unfold stopTrialTimer
    split
    · rfl
    · assumption
  unfold render
  split
  · exact ⟨rfl, hstop⟩
  · split
    · exact ⟨rfl, hstop⟩
    · exact ⟨rfl, hstop⟩

/-- C18, the code at the failing input: in the lesson room the Start button is
clicked (handle 7) and the route then changes to the dashboard; `render` stops
the trial timer only, so the lesson-room timer id is still 7 on the dashboard
route.  No `render` writes to the lesson-room timer. -/
theorem room_timer_survives_route_change :
    (timerStartClick demoRoomUi 7).timer.id = some 7 ∧
    (render (timerStartClick demoRoomUi 7) (some (seedStudent demoPlatform demoEnv))
      ⟨"dashboard", none⟩ 8).1.route.name = "dashboard" ∧
    (render (timerStartClick demoRoomUi 7) (some (seedStudent demoPlatform demoEnv))
      ⟨"dashboard", none⟩ 8).1.timer.id = some 7 ∧
    (render (timerStartClick demoRoomUi 7) (some (seedStudent demoPlatform demoEnv))
      ⟨"dashboard", none⟩ 8).1.trial.timerId = none ∧
    ∀ (ui : Ui) (u : Option User) (r : Route) (h : Nat),
      (render ui u r h).1.timer = ui.timer := by
  refine ⟨by decide, by decide, by decide, by decide, ?_⟩
  intro ui u r h
  have hstop : (stopTrialTimer ui).timer = ui.timer := by
    unfold stopTrialTimer
    split <;> rfl
  have htrial : ∀ x : Ui, (trial x h).timer = x.timer := by
    intro x
    unfold trial
    split
    · rfl
    · unfold startTrialTimer stopTrialTimer
      split <;> rfl
  unfold render
  split
  · exact hstop
  · split
    · exact hstop
    · split
      · rw [htrial]
        exact hstop
      · exact hstop

/-- C20: `room()` shows the live room of a lesson only if that lesson is stored
under the route parameter as id, has status accepted, and has the current user
as student or tutor, and it does so for the first stored lesson with that id
that meets these conditions; in every other case it shows the unavailable or
the no-access message and leaves the database and the stored document as they
were. -/
theorem room_access (a : App) (u : User) (param : Option String) :
    (∀ l : Lesson, (room a u param).1 = RoomView.live l →
      l ∈ a.db.lessons ∧ some l.id = param ∧ l.status = "accepted" ∧
      (u.id = l.studentId ∨ u.id = l.tutorId)) ∧
    (∀ l : Lesson, (a.db.lessons.find? fun x => some x.id = param) = some l →
      l.status = "accepted" → (u.id = l.studentId ∨ u.id = l.tutorId) →
      (room a u param).1 = RoomView.live l) ∧
    ((∀ l : Lesson, (room a u param).1 ≠ RoomView.live l) →
      ((room a u param).1 = RoomView.unavailable ∨ (room a u param).1 = RoomView.noAccess) ∧
      (room a u param).2 = a) := by
  cases hf : a.db.lessons.find? fun x => some x.id = param with
  | none =>
    have hval : room a u param = (RoomView.unavailable, a) := by
      simp only [room, hf]
    rw [hval]
    refine ⟨fun l h => ?_, fun l h => ?_, fun _ => ⟨Or.inl rfl, rfl⟩⟩
    · cases h
    · cases h
  | some l0 =>
    have hmem : l0 ∈ a.db.lessons := List.mem_of_find?_eq_some hf
    have hid : some l0.id = param := by simpa using List.find?_some hf
    by_cases hst : l0.status = "accepted"
    · by_cases hu : u.id = l0.studentId ∨ u.id = l0.tutorId
      · have hno : ¬ (u.id ≠ l0.studentId ∧ u.id ≠ l0.tutorId) := by
          rintro ⟨h1, h2⟩
          exact hu.elim h1 h2
        have hval : room a u param = (RoomView.live l0, wb (ensureTools a l0.id) l0.id) := by
          simp only [room, hf, hst, ne_eq, not_true_eq_false, if_false, hno]
        rw [hval]
        refine ⟨fun l h => ?_, fun l h _ _ => ?_, fun h => absurd rfl (h l0)⟩
        · cases h
          exact ⟨hmem, hid, hst, hu⟩
        · cases h
          rfl
      · have hno : u.id ≠ l0.studentId ∧ u.id ≠ l0.tutorId :=
          ⟨fun h => hu (Or.inl h), fun h => hu (Or.inr h)⟩
        have hval : room a u param = (RoomView.noAccess, a) := by
          simp [room, hf, hst, hno]
        rw [hval]
        refine ⟨fun l h => ?_, fun l h _ hp => ?_, fun _ => ⟨Or.inr rfl, rfl⟩⟩
        · cases h
        · cases h
          exact absurd hp hu
    · have hval : room a u param = (RoomView.unavailable, a) := by
        simp only [room, hf, ne_eq, hst, not_false_eq_true, if_true]
      rw [hval]
      refine ⟨fun l h => ?_, fun l h hs _ => ?_, fun _ => ⟨Or.inl rfl, rfl⟩⟩
      · cases h
      · cases h
        exact absurd hs hst

/-- Instance of `room_access` on the seeded database: the student opens the
accepted lesson, and then the pending one. -/
theorem room_access_witness :
    (room ⟨demoDb, some demoDb⟩ (seedStudent demoPlatform demoEnv) (some "l_1")).1 =
      RoomView.live (seedL1 demoPlatform demoEnv) ∧
    ((room ⟨demoDb, some demoDb⟩ (seedStudent demoPlatform demoEnv) (some "l_2")).1 =
        RoomView.unavailable ∨
      (room ⟨demoDb, some demoDb⟩ (seedStudent demoPlatform demoEnv) (some "l_2")).1 =
        RoomView.noAccess) ∧
    (room ⟨demoDb, some demoDb⟩ (seedStudent demoPlatform demoEnv) (some "l_2")).2 =
      ⟨demoDb, some demoDb⟩ :=
  have h1 := (room_access ⟨demoDb, some demoDb⟩ (seedStudent demoPlatform demoEnv)
    (some "l_1")).2.1 (seedL1 demoPlatform demoEnv) (by decide) (by decide) (by decide)
  have hv : (room ⟨demoDb, some demoDb⟩ (seedStudent demoPlatform demoEnv) (some "l_2")).1 =
      RoomView.unavailable := by decide
  have h2 := (room_access ⟨demoDb, some demoDb⟩ (seedStudent demoPlatform demoEnv)
    (some "l_2")).2.2 (fun l h => by rw [hv] at h; cases h)
  ⟨h1, h2.1, h2.2⟩

/-! ## Dashboard list against lessons-page list -/

theorem orderedInsert_of_head_le (a : Lesson) (L : List Lesson)
    (h : ∀ c ∈ L, a.datetime ≤ c.datetime) :
    L.orderedInsert (fun x y : Lesson => x.datetime ≤ y.datetime) a = a :: L := by
  cases L with
  | nil => rfl
  | cons b bs =>
    have hb : a.datetime ≤ b.datetime := h b (List.mem_cons_self _ _)
    simp only [List.orderedInsert, hb, if_true]

theorem filter_orderedInsert (p : Lesson → Bool) (a : Lesson) (M : List Lesson)
    (hM : M.Sorted fun x y : Lesson => x.datetime ≤ y.datetime) :
    (M.orderedInsert (fun x y : Lesson => x.datetime ≤ y.datetime) a).filter p =
      if p a = true then
        (M.filter p).orderedInsert (fun x y : Lesson => x.datetime ≤ y.datetime) a
      else M.filter p := by
  induction M with
  | nil =>
    by_cases hpa : p a = true <;> simp [List.orderedInsert, hpa]
  | cons b bs ih =>
    have hsorted := List.pairwise_cons.mp hM
    by_cases hab : a.datetime ≤ b.datetime
    · have hall : ∀ c ∈ (b :: bs).filter p, a.datetime ≤ c.datetime := by
        intro c hc
        rcases List.mem_cons.mp (List.mem_filter.mp hc).1 with rfl | hmem
        · exact hab
        · exact le_trans hab (hsorted.1 c hmem)
      have hins : (b :: bs).orderedInsert (fun x y : Lesson => x.datetime ≤ y.datetime) a =
          a :: b :: bs := by
        simp only [List.orderedInsert, hab, if_true]
      rw [hins]
      by_cases hpa : p a = true
      · rw [if_pos hpa, orderedInsert_of_head_le a _ hall, List.filter_cons_of_pos hpa]
      · rw [if_neg hpa, List.filter_cons_of_neg hpa]
    · have hins : (b :: bs).orderedInsert (fun x y : Lesson => x.datetime ≤ y.datetime) a =
          b :: bs.orderedInsert (fun x y : Lesson => x.datetime ≤ y.datetime) a := by
        simp only [List.orderedInsert, hab, if_false]
      rw [hins]
      by_cases hpb : p b = true
      · rw [List.filter_cons_of_pos hpb, List.filter_cons_of_pos hpb, ih hsorted.2]
        by_cases hpa : p a = true
        · rw [if_pos hpa, if_pos hpa]
          simp only [List.orderedInsert, hab, if_false]
        · rw [if_neg hpa, if_neg hpa]
      · rw [List.filter_cons_of_neg hpb, List.filter_cons_of_neg hpb, ih hsorted.2]

theorem filter_sortByDatetime (p : Lesson → Bool) (xs : List Lesson) :
    (sortByDatetime xs).filter p = sortByDatetime (xs.filter p) := by
  induction xs with
  | nil => rfl
  | cons a as ih =>
    have hstep : sortByDatetime (a :: as) =
        (sortByDatetime as).orderedInsert (fun x y : Lesson => x.datetime ≤ y.datetime) a := rfl
    rw [hstep, filter_orderedInsert p a _ (sorted_sortByDatetime as), ih]
    by_cases hpa : p a = true
    · rw [if_pos hpa, List.filter_cons_of_pos hpa]
      rfl
    · rw [if_neg hpa, List.filter_cons_of_neg hpa]

/-- C22: for every user, database and current time, the upcoming list of the
dashboard (filter accepted and future, sort ascending, take 3) is the list of
the first 3 elements of the upcoming list of the lessons page (sort, filter,
take 5), element by element and so with the same order among lessons of equal
datetime; filtering the sorted lessons gives the same list as sorting the
filtered ones. -/
theorem dashboard_eq_take_lessons (db : DB) (u : User) (now : Int) :
    dashboardUpcoming db u now = (lessonsUpcoming db u now).take 3 ∧
    (lessonsAll db u).filter (fun l => l.status = "accepted" ∧ now < l.datetime) =
      sortByDatetime ((userLessons db u).filter fun l =>
        l.status = "accepted" ∧ now < l.datetime) := by
  have hcomm := filter_sortByDatetime
    (fun l => decide (l.status = "accepted" ∧ now < l.datetime)) (userLessons db u)
  refine ⟨?_, hcomm⟩
  unfold dashboardUpcoming lessonsUpcoming lessonsAll
  rw [hcomm, List.take_take]
  rfl

/-! ## HTML escaping -/

theorem replaceChar_append (c : Char) (rep a b : List Char) :
    replaceChar c rep (a ++ b) = replaceChar c rep a ++ replaceChar c rep b := by
  induction a with
  | nil => rfl
  | cons x xs ih =>
    show replaceChar c rep (x :: (xs ++ b)) = replaceChar c rep (x :: xs) ++ replaceChar c rep b
    by_cases hx : x = c
    · simp only [replaceChar, hx, if_true, ih, List.append_assoc]
    · simp only [replaceChar, hx, if_false, ih, List.cons_append]

theorem escChars_append (a b : List Char) : escChars (a ++ b) = escChars a ++ escChars b := by
  simp only [escChars, replaceChar_append]

theorem esc_data (s : String) : (esc s).data = escChars s.data := rfl

theorem escChars_singleton (x : Char) : escChars [x] = escChar x := by
  by_cases h1 : x = '&'
  · subst h1; decide
  · by_cases h2 : x = '<'
    · subst h2; decide
    · by_cases h3 : x = '>'
      · subst h3; decide
      · by_cases h4 : x = dquote
        · subst h4; decide
        · by_cases h5 : x = squote
          · subst h5; decide
          · simp [escChars, escChar, replaceChar, h1, h2, h3, h4, h5]

theorem escChars_cons (x : Char) (xs : List Char) :
    escChars (x :: xs) = escChar x ++ escChars xs := by
  rw [← escChars_singleton, ← escChars_append]
  rfl

theorem escChar_clean (x c : Char) (hc : c ∈ escChar x) :
    c ≠ '<' ∧ c ≠ '>' ∧ c ≠ dquote ∧ c ≠ squote := by
  have hamp : ∀ d ∈ "&amp;".data, d ≠ '<' ∧ d ≠ '>' ∧ d ≠ dquote ∧ d ≠ squote := by decide
  have hlt : ∀ d ∈ "&lt;".data, d ≠ '<' ∧ d ≠ '>' ∧ d ≠ dquote ∧ d ≠ squote := by decide
  have hgt : ∀ d ∈ "&gt;".data, d ≠ '<' ∧ d ≠ '>' ∧ d ≠ dquote ∧ d ≠ squote := by decide
  have hquot : ∀ d ∈ "&quot;".data, d ≠ '<' ∧ d ≠ '>' ∧ d ≠ dquote ∧ d ≠ squote := by decide
  have hapos : ∀ d ∈ "&#039;".data, d ≠ '<' ∧ d ≠ '>' ∧ d ≠ dquote ∧ d ≠ squote := by decide
  unfold escChar at hc
  split at hc
  · exact hamp c hc
  · split at hc
    · exact hlt c hc
    · split at hc
      · exact hgt c hc
      · split at hc
        · exact hquot c hc
        · split at hc
          · exact hapos c hc
          · rw [List.mem_singleton] at hc
            subst hc
            exact ⟨by assumption, by assumption, by assumption, by assumption⟩

theorem entity_amp_first (e pre rest : List Char) (hno : '&' ∉ e.tail)
    (h : e = pre ++ '&' :: rest) : pre = [] := by
  cases pre with
  | nil => rfl
  | cons p ps =>
    exfalso
    apply hno
    rw [h]
    simp

theorem escChar_amp (x : Char) (pre rest : List Char) (h : escChar x = pre ++ '&' :: rest) :
    pre = [] ∧ ∃ e ∈ entities, e.1 = '&' :: rest := by
  unfold escChar at h
  split at h
  · have hp := entity_amp_first _ pre rest (by decide) h
    subst hp
    exact ⟨rfl, ("&amp;".data, '&'), by decide, h⟩
  · split at h
    · have hp := entity_amp_first _ pre rest (by decide) h
      subst hp
      exact ⟨rfl, ("&lt;".data, '<'), by decide, h⟩
    · split at h
      · have hp := entity_amp_first _ pre rest (by decide) h
        subst hp
        exact ⟨rfl, ("&gt;".data, '>'), by decide, h⟩
      · split at h
        · have hp := entity_amp_first _ pre rest (by decide) h
          subst hp
          exact ⟨rfl, ("&quot;".data, dquote), by decide, h⟩
        · split at h
          · have hp := entity_amp_first _ pre rest (by decide) h
            subst hp
            exact ⟨rfl, ("&#039;".data, squote), by decide, h⟩
          · rename_i h1 _ _ _ _
            have hmem : '&' ∈ [x] := by
              rw [h]
              simp
            rw [List.mem_singleton] at hmem
            exact absurd hmem.symm h1

theorem escChars_amp (l : List Char) :
    ∀ pre post : List Char, escChars l = pre ++ '&' :: post →
      ∃ e ∈ entities, e.1 <+: '&' :: post := by
  induction l with
  | nil =>
    intro pre post h
    have hnil : escChars [] = [] := rfl
    rw [hnil] at h
    simp at h
  | cons x xs ih =>
    intro pre post h
    rw [escChars_cons, List.append_eq_append_iff] at h
    rcases h with ⟨a, _, ha⟩ | ⟨c, hc, hpost⟩
    · exact ih a post ha
    · cases c with
      | nil =>
        rw [List.nil_append] at hpost
        exact ih [] post hpost.symm
      | cons d ds =>
        rw [List.cons_append] at hpost
        injection hpost with hd hds
        subst hd
        obtain ⟨_, e, he, heq⟩ := escChar_amp x pre ds hc
        refine ⟨e, he, ?_⟩
        rw [heq, hds]
        exact ⟨escChars xs, by simp⟩

theorem entity_data :
    "&amp;".data = ['&', 'a', 'm', 'p', ';'] ∧ "&lt;".data = ['&', 'l', 't', ';'] ∧
    "&gt;".data = ['&', 'g', 't', ';'] ∧ "&quot;".data = ['&', 'q', 'u', 'o', 't', ';'] ∧
    "&#039;".data = ['&', '#', '0', '3', '9', ';'] :=
  ⟨rfl, rfl, rfl, rfl, rfl⟩

theorem unescFrom_escChar (x : Char) (rest : List Char) :
    unescFrom 0 (escChar x ++ rest) = x :: unescFrom 0 rest := by
  obtain ⟨e1, e2, e3, e4, e5⟩ := entity_data
  by_cases h1 : x = '&'
  · subst h1
    have hv : escChar '&' = ['&', 'a', 'm', 'p', ';'] := by decide
    rw [hv]
    simp [unescFrom, entityAt, entities, e1, e2, e3, e4, e5, List.isPrefixOf]
  · by_cases h2 : x = '<'
    · subst h2
      have hv : escChar '<' = ['&', 'l', 't', ';'] := by decide
      rw [hv]
      simp [unescFrom, entityAt, entities, e1, e2, e3, e4, e5, List.isPrefixOf]
    · by_cases h3 : x = '>'
      · subst h3
        have hv : escChar '>' = ['&', 'g', 't', ';'] := by decide
        rw [hv]
        simp [unescFrom, entityAt, entities, e1, e2, e3, e4, e5, List.isPrefixOf]
      · by_cases h4 : x = dquote
        · subst h4
          have hv : escChar dquote = ['&', 'q', 'u', 'o', 't', ';'] := by decide
          rw [hv]
          simp [unescFrom, entityAt, entities, e1, e2, e3, e4, e5, List.isPrefixOf]
        · by_cases h5 : x = squote
          · subst h5
            have hv : escChar squote = ['&', '#', '0', '3', '9', ';'] := by decide
            rw [hv]
            simp [unescFrom, entityAt, entities, e1, e2, e3, e4, e5, List.isPrefixOf]
          · have hnone : entityAt (x :: rest) = none := by
              have hx : ('&' == x) = false := by
                simpa using fun h => h1 h.symm
              simp [entityAt, entities, e1, e2, e3, e4, e5, List.isPrefixOf, hx]
            simp only [escChar, h1, h2, h3, h4, h5, if_false, List.singleton_append, unescFrom,
              hnone]

theorem unescFrom_escChars (l : List Char) : unescFrom 0 (escChars l) = l := by
  induction l with
  | nil => rfl
  | cons x xs ih => rw [escChars_cons, unescFrom_escChar, ih]

/-- C21: for every string s, `esc(s)` has none of the characters `<`, `>`, the
double quote and the apostrophe; every `&` in it starts one of the five
entities `&amp;` `&lt;` `&gt;` `&quot;` `&#039;`; and replacing these entities,
read from left to right, by the characters they stand for gives back s. -/
theorem esc_spec (s : String) :
    (∀ c ∈ (esc s).data, c ≠ '<' ∧ c ≠ '>' ∧ c ≠ dquote ∧ c ≠ squote) ∧
    (∀ pre post : List Char, (esc s).data = pre ++ '&' :: post →
      ∃ e ∈ entities, e.1 <+: '&' :: post) ∧
    unesc (esc s) = s := by
  refine ⟨?_, fun pre post h => escChars_amp s.data pre post h, ?_⟩
  · rw [esc_data]
    generalize s.data = l
    induction l with
    | nil => intro c hc; cases hc
    | cons x xs ih =>
      intro c hc
      rw [escChars_cons, List.mem_append] at hc
      rcases hc with hc | hc
      · exact escChar_clean x c hc
      · exact ih c hc
  · unfold unesc
    rw [esc_data, unescFrom_escChars]

/-- Instance of `esc_spec` on a string with all five replaced characters: the
escaped text, the entity at its first `&`, and the way back. -/
theorem esc_spec_witness :
    esc demoMarkup = "&lt;b&gt;&amp;&quot;&#039;" ∧
    (∃ e ∈ entities, e.1 <+: '&' :: "lt;b&gt;&amp;&quot;&#039;".data) ∧
    unesc (esc demoMarkup) = demoMarkup :=
  ⟨by decide, (esc_spec demoMarkup).2.1 [] "lt;b&gt;&amp;&quot;&#039;".data (by decide),
    (esc_spec demoMarkup).2.2⟩

end EnglishTutor
